import Mathlib

/-!
Verification of the embed-extraction core of the repository
(`src/embed-api`: `url-parser.ts`, `embed-service.ts` with its YouTube and
Generic parsers, and the `MetadataExtractor` module).

The TypeScript source is shallowly embedded below.  External collaborators
are modelled explicitly:

* the network (axios) is a `World` mapping request URLs to responses;
* the WHATWG `URL` class is modelled by `parseList` / `UrlObj.toStr`, a
  simplified parser that is faithful on the fragment of URL syntax the
  claims exercise (scheme, host, path, query, fragment).  Ports, userinfo,
  IPv6 hosts, percent-encoding normalisation and ASCII case folding of
  host names are outside the model and are noted where relevant;
* JavaScript regular expressions are modelled by a small backtracking
  engine (`Re`, `JsRegex`) into which the pattern literals of
  `URLParser.PLATFORM_PATTERNS` are transcribed;
* cheerio documents are modelled by `HtmlDoc`, a bag of meta tags plus the
  text of the `title` element.

Every outbound network request is recorded as a `FetchEvent`, so that
fetch-count properties can be stated about traces.
-/

set_option maxRecDepth 10000

/-- JavaScript-style list prefix test: `startsWithL pat l` is true iff
`pat` is a prefix of `l`. -/
def startsWithL : List Char → List Char → Bool
  | [], _ => true
  | _ :: _, [] => false
  | p :: ps, c :: cs => p = c && startsWithL ps cs

/-- Model of JavaScript `s.startsWith(p)`. -/
def jsStartsWith (s p : String) : Bool :=
  startsWithL p.toList s.toList

/-- Remove the first occurrence of `pat` from a list of characters, the
semantics of JavaScript `s.replace(pat, "")` with a string pattern: only
the first occurrence, anywhere in the string, is removed. -/
def removeFirstOcc (pat : List Char) : List Char → List Char
  | [] => []
  | c :: rest =>
    if startsWithL pat (c :: rest) then (c :: rest).drop pat.length
    else c :: removeFirstOcc pat rest

/-- Model of JavaScript `s.replace(pat, "")`. -/
def jsRemove (s pat : String) : String :=
  String.mk (removeFirstOcc pat.toList s.toList)

/-- Trim leading and trailing whitespace from a character list. -/
def trimL (l : List Char) : List Char :=
  ((l.dropWhile Char.isWhitespace).reverse.dropWhile Char.isWhitespace).reverse

/-- Model of JavaScript `s.trim()`. -/
def jsTrim (s : String) : String :=
  String.mk (trimL s.toList)

/-- Model of JavaScript `s.toLowerCase()` on the ASCII values this code
compares against (character-wise lowering, structural on the list). -/
def jsToLower (s : String) : String :=
  String.mk (s.toList.map Char.toLower)

/-- Split a character list at the first occurrence of `c`; `none` when `c`
does not occur. -/
def splitFirst (c : Char) : List Char → Option (List Char × List Char)
  | [] => none
  | x :: xs =>
    if x = c then some ([], xs)
    else (splitFirst c xs).map (fun pr => (x :: pr.1, pr.2))

/-- Characters allowed in a URL scheme after the first one. -/
def schemeCharOk (c : Char) : Bool :=
  c.isAlpha || c.isDigit || c = '+' || c = '-' || c = '.'

/-- A valid scheme is nonempty, starts with a letter and contains only
scheme characters. -/
def schemeOkB : List Char → Bool
  | [] => false
  | c :: cs => c.isAlpha && (c :: cs).all schemeCharOk

/-- Case-insensitive equality of character lists. -/
def eqCI (a b : List Char) : Bool :=
  decide (a.map Char.toLower = b.map Char.toLower)

/-- The special schemes of the model: the two schemes that carry an
authority component here.  (WHATWG also treats ws/wss/ftp/file as special;
they do not occur in this code base.) -/
def isSpecialScheme (sch : List Char) : Bool :=
  eqCI sch ("http".toList) || eqCI sch ("https".toList)

/-- Forbidden host code points, per the WHATWG URL standard (the model
additionally forbids `%`, i.e. it does not percent-decode hosts, and has
no port or userinfo syntax, so `:` and `@` make a parse fail). -/
def forbiddenHostChar (c : Char) : Bool :=
  c = '\x00' || c = '\t' || c = '\n' || c = '\r' || c = ' ' || c = '#' ||
  c = '%' || c = '/' || c = ':' || c = '<' || c = '>' || c = '?' ||
  c = '@' || c = '[' || c = '\\' || c = ']' || c = '^' || c = '|'

/-- True while still inside the authority component. -/
def notAuthEnd (c : Char) : Bool :=
  !(c = '/' || c = '?' || c = '#')

/-- True while still inside the path component. -/
def notQF (c : Char) : Bool :=
  !(c = '?' || c = '#')

/-- Parsed URL record.  For non-special (opaque) schemes `host` is empty
and `path` holds everything between the scheme separator and the query.
Unlike WHATWG, scheme and host are stored verbatim (no ASCII lower-casing);
no claim depends on case normalisation. -/
structure UrlObj where
  scheme : List Char
  host : List Char
  path : List Char
  query : Option (List Char)
  fragment : Option (List Char)
deriving DecidableEq

/-- Parse the query/fragment tail of a URL (everything after the path). -/
def parseQF (l : List Char) : Option (List Char) × Option (List Char) :=
  match l with
  | '?' :: r =>
    (some (r.takeWhile (fun c => !(c = '#'))),
     match r.dropWhile (fun c => !(c = '#')) with
     | _ :: f => some f
     | [] => none)
  | '#' :: f => (none, some f)
  | _ => (none, none)

/-- Parse the part after `scheme:` for a special (http/https) scheme:
skip any number of slashes, read the authority, then path, query and
fragment.  An empty authority or one containing a forbidden character is
a parse failure, mirroring `new URL(...)` throwing. -/
def parseSpecialRest (sch rest : List Char) : Option UrlObj :=
  let rest1 := rest.dropWhile (fun c => c = '/')
  let auth := rest1.takeWhile notAuthEnd
  let after := rest1.dropWhile notAuthEnd
  if auth = [] || auth.any forbiddenHostChar then none
  else
    let pcs := after.takeWhile notQF
    let qf := after.dropWhile notQF
    let (q, f) := parseQF qf
    some { scheme := sch, host := auth,
           path := if pcs = [] then ['/'] else pcs,
           query := q, fragment := f }

/-- Parse the part after `scheme:` for a non-special scheme: an opaque
path followed by optional query and fragment. -/
def parseOpaqueRest (sch rest : List Char) : UrlObj :=
  let pcs := rest.takeWhile notQF
  let qf := rest.dropWhile notQF
  let (q, f) := parseQF qf
  { scheme := sch, host := [], path := pcs, query := q, fragment := f }

/-- Model of `new URL(s)`: `none` models the constructor throwing. -/
def parseList (cs : List Char) : Option UrlObj :=
  match splitFirst ':' cs with
  | none => none
  | some (sch, rest) =>
    if schemeOkB sch then
      if isSpecialScheme sch then parseSpecialRest sch rest
      else some (parseOpaqueRest sch rest)
    else none

/-- Whether the parsed URL has an authority (http/https in this model). -/
def UrlObj.isSpecial (u : UrlObj) : Bool :=
  isSpecialScheme u.scheme

/-- Serialisation of the query/fragment tail of a URL. -/
def qfStr (query frag : Option (List Char)) : List Char :=
  (match query with
   | some q => '?' :: q
   | none => []) ++
  (match frag with
   | some f => '#' :: f
   | none => [])

/-- Serialisation of a parsed URL, the model of `URL.prototype.toString`. -/
def UrlObj.toStr (u : UrlObj) : List Char :=
  u.scheme ++ ':' :: (if u.isSpecial then '/' :: '/' :: u.host else []) ++
  u.path ++ qfStr u.query u.fragment

/-- Model of `URL.prototype.hostname` (empty for opaque URLs). -/
def UrlObj.hostname (u : UrlObj) : String :=
  String.mk u.host

/-- Model of `URL.prototype.origin` (`"null"` for opaque URLs, as in the
standard). -/
def UrlObj.origin (u : UrlObj) : String :=
  if u.isSpecial then String.mk (u.scheme ++ ':' :: '/' :: '/' :: u.host)
  else "null"

/-- Split a raw query string on `&`. -/
def splitOnAmp : List Char → List (List Char)
  | [] => [[]]
  | c :: t =>
    if c = '&' then [] :: splitOnAmp t
    else
      match splitOnAmp t with
      | [] => [[c]]
      | s :: ss => (c :: s) :: ss

/-- Split one `key=value` segment at its first `=`; a segment without `=`
becomes a pair with empty value, as in `URLSearchParams`. -/
def splitEq (seg : List Char) : List Char × List Char :=
  match splitFirst '=' seg with
  | some (k, v) => (k, v)
  | none => (seg, [])

/-- Model of reading `URLSearchParams` off a raw query string: split on
`&`, drop empty segments, split each segment at its first `=`.
(Percent- and plus-decoding are outside the model.) -/
def parseParams (l : List Char) : List (List Char × List Char) :=
  (splitOnAmp l).filterMap
    (fun seg => if seg = [] then none else some (splitEq seg))

/-- Serialisation of a parameter list back to a raw query string. -/
def joinAmp : List (List Char × List Char) → List Char
  | [] => []
  | [kv] => kv.1 ++ '=' :: kv.2
  | kv :: rest => kv.1 ++ '=' :: kv.2 ++ '&' :: joinAmp rest

/-- The tracking query parameters removed by `URLParser.normalizeUrl`. -/
def trackingKeys : List (List Char) :=
  [("utm_source").toList, ("utm_medium").toList, ("utm_campaign").toList,
   ("utm_term").toList, ("utm_content").toList, ("fbclid").toList,
   ("gclid").toList, ("ref").toList, ("source").toList,
   ("campaign_id").toList]

/-- Delete the tracking parameters from a parsed URL and re-serialise its
query, the model of the `searchParams.delete` loop in `normalizeUrl`
(deleting always re-serialises the query; an empty parameter list makes
the query null, as in the standard). -/
def deleteTracking (u : UrlObj) : UrlObj :=
  let ps := parseParams (u.query.getD [])
  let ps' := ps.filter (fun kv => !(trackingKeys.contains kv.1))
  { u with query := if ps' = [] then none else some (joinAmp ps') }

/-- Prepend `https://` when the input has no http/https scheme prefix;
this models the reassignment of the local variable `url` at the top of
`URLParser.normalizeUrl` (note: the `catch` of that method returns this
reassigned value, not the original argument). -/
def withScheme (url : String) : String :=
  if !(jsStartsWith url ("http://")) && !(jsStartsWith url ("https://"))
  then "https://" ++ url else url

/-- Model of `URLParser.normalizeUrl`. -/
def URLParser.normalizeUrl (url : String) : String :=
  let url1 := withScheme url
  match parseList url1.toList with
  | some urlObj => String.mk (UrlObj.toStr (deleteTracking urlObj))
  | none => url1

/-- Model of `URLParser.isValidUrl`. -/
def URLParser.isValidUrl (url : String) : Bool :=
  (parseList url.toList).isSome

/-- Model of `URLParser.isEmbeddable`. -/
def URLParser.isEmbeddable (url : String) : Bool :=
  match parseList url.toList with
  | some u => u.isSpecial
  | none => false

/-- Model of `URLParser.getDomain`. -/
def URLParser.getDomain (url : String) : Option String :=
  (parseList url.toList).map UrlObj.hostname

/-!
Regular-expression engine.  `PLATFORM_PATTERNS` in `url-parser.ts` is a
table of JavaScript regex literals (all with the `i` flag); they use only
literals, character classes, alternation, optional groups, `+`, `*`, a
`{11}` counted class and one capturing group each.  The engine below
implements exactly that fragment with JavaScript semantics: leftmost
match, alternation preferring the left branch, greedy quantifiers with
backtracking.  Starred/plus-ed subexpressions in these patterns are all
single-character classes, so repetition is structural on the input.
-/

/-- Regex abstract syntax for the fragment used by `PLATFORM_PATTERNS`.
`str` literals match case-insensitively (the `i` flag); classes carry
their own character predicate. -/
inductive Re where
  | eps : Re
  | str : List Char → Re
  | cls : (Char → Bool) → Re
  | starCls : (Char → Bool) → Re
  | repCls : (Char → Bool) → Nat → Re
  | seq : Re → Re → Re
  | alt : Re → Re → Re
  | grp : Re → Re

/-- Optional subexpression `r?` (greedy: try `r` first). -/
def Re.opt (r : Re) : Re :=
  Re.alt r Re.eps

/-- One-or-more repetitions of a character class, `[c]+`. -/
def Re.plusCls (p : Char → Bool) : Re :=
  Re.seq (Re.cls p) (Re.starCls p)

/-- Strip a literal off the input, comparing case-insensitively. -/
def stripCI : List Char → List Char → Option (List Char)
  | [], s => some s
  | _ :: _, [] => none
  | p :: pr, c :: cr =>
    if c.toLower = p.toLower then stripCI pr cr else none

/-- Greedy Kleene star over a character class, in continuation-passing
style: consume as many `p`-characters as possible, backtracking to
shorter prefixes when the continuation fails. -/
def starM (p : Char → Bool)
    (k : List Char → Option (List Char) → Option (Option (List Char))) :
    List Char → Option (List Char) → Option (Option (List Char))
  | [], cap => k [] cap
  | c :: rest, cap =>
    if p c then
      (starM p k rest cap).orElse (fun _ => k (c :: rest) cap)
    else k (c :: rest) cap

/-- Exactly-`n` repetitions of a character class, in CPS. -/
def repM (p : Char → Bool) :
    Nat → List Char → Option (List Char) →
    (List Char → Option (List Char) → Option (Option (List Char))) →
    Option (Option (List Char))
  | 0, s, cap, k => k s cap
  | n + 1, s, cap, k =>
    match s with
    | [] => none
    | c :: rest => if p c then repM p n rest cap k else none

/-- The backtracking matcher.  `matchM r s cap k` tries to match `r` at
the head of `s`; `cap` is the value of the single capturing group so far
and `k` is the continuation receiving the rest of the input and the
updated capture.  The result is `some capture` on overall success. -/
def matchM : Re → List Char → Option (List Char) →
    (List Char → Option (List Char) → Option (Option (List Char))) →
    Option (Option (List Char))
  | Re.eps, s, cap, k => k s cap
  | Re.str l, s, cap, k =>
    match stripCI l s with
    | some s' => k s' cap
    | none => none
  | Re.cls p, s, cap, k =>
    match s with
    | [] => none
    | c :: rest => if p c then k rest cap else none
  | Re.starCls p, s, cap, k => starM p k s cap
  | Re.repCls p n, s, cap, k => repM p n s cap k
  | Re.seq a b, s, cap, k =>
    matchM a s cap (fun s' cap' => matchM b s' cap' k)
  | Re.alt a b, s, cap, k =>
    (matchM a s cap k).orElse (fun _ => matchM b s cap k)
  | Re.grp r, s, cap, k =>
    matchM r s cap
      (fun s' _ => k s' (some (s.take (s.length - s'.length))))

/-- Unanchored search: try to match at every position, leftmost first,
the semantics of `RegExp.prototype.exec` / `String.prototype.match`. -/
def execFrom (r : Re) : List Char → Option (Option (List Char))
  | [] => matchM r [] none (fun _ cap => some cap)
  | c :: t =>
    match matchM r (c :: t) none (fun _ cap => some cap) with
    | some cap => some cap
    | none => execFrom r t

/-- A JavaScript regex literal of the pattern table: its syntax tree plus
whether it is anchored at the start (`^`). -/
structure JsRegex where
  anchored : Bool
  re : Re

/-- Model of `url.match(pattern)` restricted to the capturing group:
`none` when the regex does not match, `some c` when it matches with
capture `c` (`c = none` models `match[1] === undefined`). -/
def JsRegex.exec (r : JsRegex) (s : String) : Option (Option String) :=
  if r.anchored then
    (matchM r.re s.toList none (fun _ cap => some cap)).map
      (fun c => c.map String.mk)
  else
    (execFrom r.re s.toList).map (fun c => c.map String.mk)

/-- Model of `pattern.test(url)`. -/
def JsRegex.test (r : JsRegex) (s : String) : Bool :=
  (r.exec s).isSome

/-- Shorthand for a case-insensitive literal. -/
def rstr (s : String) : Re :=
  Re.str s.toList

/-- The class `.` of JavaScript (any character except line terminators;
the unicode line separators are omitted from the model). -/
def dotCls (c : Char) : Bool :=
  !(c = '\n' || c = '\r')

/-- The class `[^\/]`. -/
def notSlashCls (c : Char) : Bool :=
  !(c = '/')

/-- The class `[^"&?\/\s]` of the YouTube id patterns (`\s` is modelled
by `Char.isWhitespace`; the exotic unicode spaces differ but are
irrelevant here). -/
def ytIdCls (c : Char) : Bool :=
  !(c = '"' || c = '&' || c = '?' || c = '/' || c.isWhitespace)

/-- The class `[A-Za-z0-9_-]`. -/
def wordDashCls (c : Char) : Bool :=
  c.isAlpha || c.isDigit || c = '_' || c = '-'

/-- The class `[A-Za-z0-9]`. -/
def alnumCls (c : Char) : Bool :=
  c.isAlpha || c.isDigit

/-- The class `\d`. -/
def digitCls (c : Char) : Bool :=
  c.isDigit

/-- The class `[?&]`. -/
def qAmpCls (c : Char) : Bool :=
  c = '?' || c = '&'

/-- The prefix `(?:https?:\/\/)?` shared by all patterns. -/
def protoRe : Re :=
  Re.opt (Re.seq (rstr ("http")) (Re.seq (Re.opt (rstr ("s"))) (rstr ("://"))))

/-- The prefix `(?:www\.)?`. -/
def wwwRe : Re :=
  Re.opt (rstr ("www."))

/-- Everything of the first YouTube pattern before its capturing group:
`(?:https?:\/\/)?(?:www\.)?(?:youtube\.com\/(?:[^\/]+\/.+\/|(?:v|e(?:mbed)?)\/|.*[?&]v=)|youtu\.be\/)`. -/
def yt1pre : Re :=
  Re.seq protoRe (Re.seq wwwRe
    (Re.alt
      (Re.seq (rstr ("youtube.com/"))
        (Re.alt
          (Re.seq (Re.plusCls notSlashCls)
            (Re.seq (rstr ("/")) (Re.seq (Re.plusCls dotCls) (rstr ("/")))))
          (Re.alt
            (Re.seq
              (Re.alt (rstr ("v")) (Re.seq (rstr ("e")) (Re.opt (rstr ("mbed")))))
              (rstr ("/")))
            (Re.seq (Re.starCls dotCls) (Re.seq (Re.cls qAmpCls) (rstr ("v=")))))))
      (rstr ("youtu.be/"))))

/-- First YouTube pattern of `PLATFORM_PATTERNS.youtube`. -/
def ytPattern1 : JsRegex :=
  { anchored := false,
    re := Re.seq yt1pre (Re.grp (Re.repCls ytIdCls 11)) }

/-- Second YouTube pattern: `(?:https?:\/\/)?(?:www\.)?youtube\.com\/shorts\/([^"&?\/\s]{11})`. -/
def ytPattern2 : JsRegex :=
  { anchored := false,
    re := Re.seq (Re.seq protoRe (Re.seq wwwRe (rstr ("youtube.com/shorts/"))))
            (Re.grp (Re.repCls ytIdCls 11)) }

/-- Instagram pattern: `(?:https?:\/\/)?(?:www\.)?instagram\.com\/(?:p|reel|tv)\/([A-Za-z0-9_-]+)`. -/
def igPattern : JsRegex :=
  { anchored := false,
    re := Re.seq
            (Re.seq protoRe (Re.seq wwwRe
              (Re.seq (rstr ("instagram.com/"))
                (Re.seq (Re.alt (rstr ("p")) (Re.alt (rstr ("reel")) (rstr ("tv"))))
                  (rstr ("/"))))))
            (Re.grp (Re.plusCls wordDashCls)) }

/-- First TikTok pattern: `(?:https?:\/\/)?(?:www\.)?tiktok\.com\/@[^\/]+\/video\/(\d+)`. -/
def ttPattern1 : JsRegex :=
  { anchored := false,
    re := Re.seq
            (Re.seq protoRe (Re.seq wwwRe
              (Re.seq (rstr ("tiktok.com/@"))
                (Re.seq (Re.plusCls notSlashCls) (rstr ("/video/"))))))
            (Re.grp (Re.plusCls digitCls)) }

/-- Second TikTok pattern: `(?:https?:\/\/)?vm\.tiktok\.com\/([A-Za-z0-9]+)` (no `www.` group). -/
def ttPattern2 : JsRegex :=
  { anchored := false,
    re := Re.seq (Re.seq protoRe (rstr ("vm.tiktok.com/")))
            (Re.grp (Re.plusCls alnumCls)) }

/-- First LinkedIn pattern: `(?:https?:\/\/)?(?:www\.)?linkedin\.com\/posts\/[^\/]+\/([A-Za-z0-9_-]+)`. -/
def liPattern1 : JsRegex :=
  { anchored := false,
    re := Re.seq
            (Re.seq protoRe (Re.seq wwwRe
              (Re.seq (rstr ("linkedin.com/posts/"))
                (Re.seq (Re.plusCls notSlashCls) (rstr ("/"))))))
            (Re.grp (Re.plusCls wordDashCls)) }

/-- Second LinkedIn pattern: `(?:https?:\/\/)?(?:www\.)?linkedin\.com\/pulse\/[^\/]+\/([A-Za-z0-9_-]+)`. -/
def liPattern2 : JsRegex :=
  { anchored := false,
    re := Re.seq
            (Re.seq protoRe (Re.seq wwwRe
              (Re.seq (rstr ("linkedin.com/pulse/"))
                (Re.seq (Re.plusCls notSlashCls) (rstr ("/"))))))
            (Re.grp (Re.plusCls wordDashCls)) }

/-- Twitter pattern: `(?:https?:\/\/)?(?:www\.)?(?:twitter\.com|x\.com)\/[^\/]+\/status\/(\d+)`. -/
def twPattern : JsRegex :=
  { anchored := false,
    re := Re.seq
            (Re.seq protoRe (Re.seq wwwRe
              (Re.seq (Re.alt (rstr ("twitter.com")) (rstr ("x.com")))
                (Re.seq (rstr ("/"))
                  (Re.seq (Re.plusCls notSlashCls) (rstr ("/status/")))))))
            (Re.grp (Re.plusCls digitCls)) }

/-- Generic pattern: `^https?:\/\/.+` (anchored; it has no capturing
group, which the engine represents by never setting the capture). -/
def genericPattern : JsRegex :=
  { anchored := true,
    re := Re.seq (rstr ("http")) (Re.seq (Re.opt (rstr ("s")))
            (Re.seq (rstr ("://")) (Re.plusCls dotCls))) }

/-- The platform enumeration of `types.ts`. -/
inductive Platform where
  | youtube | instagram | tiktok | linkedin | twitter | generic
deriving DecidableEq

/-- The ordered pattern table `URLParser.PLATFORM_PATTERNS` (object
literal insertion order, which `Object.entries` preserves). -/
def URLParser.PLATFORM_PATTERNS : List (Platform × List JsRegex) :=
  [(Platform.youtube, [ytPattern1, ytPattern2]),
   (Platform.instagram, [igPattern]),
   (Platform.tiktok, [ttPattern1, ttPattern2]),
   (Platform.linkedin, [liPattern1, liPattern2]),
   (Platform.twitter, [twPattern]),
   (Platform.generic, [genericPattern])]

/-- Iteration core of `URLParser.detectPlatform`: walk the entries in
order, skip the generic entry, return the first platform one of whose
patterns tests true. -/
def detectPlatformAux : List (Platform × List JsRegex) → String → Platform
  | [], _ => Platform.generic
  | (p, pats) :: rest, url =>
    if p = Platform.generic then detectPlatformAux rest url
    else if pats.any (fun r => r.test url) then p
    else detectPlatformAux rest url

/-- Model of `URLParser.detectPlatform`. -/
def URLParser.detectPlatform (url : String) : Platform :=
  detectPlatformAux URLParser.PLATFORM_PATTERNS url

/-- Whether one of the given platform patterns matches the URL. -/
def platformMatches (p : Platform) (url : String) : Bool :=
  match (URLParser.PLATFORM_PATTERNS.find? (fun e => e.1 = p)) with
  | some (_, pats) => pats.any (fun r => r.test url)
  | none => false

/-- Loop body shared by the id extractors: for each pattern in order,
`const match = url.match(pattern); if (match && match[1]) return match[1]`.
A match whose group is undefined or empty (falsy) does not stop the loop. -/
def matchIdAux : List JsRegex → String → Option String
  | [], _ => none
  | r :: rest, url =>
    match r.exec url with
    | some (some cap) =>
      if cap.length ≠ 0 then some cap else matchIdAux rest url
    | _ => matchIdAux rest url

/-- Model of `URLParser.extractYouTubeVideoId`. -/
def URLParser.extractYouTubeVideoId (url : String) : Option String :=
  matchIdAux [ytPattern1, ytPattern2] url

/-- Model of `URLParser.extractInstagramPostId` (single pattern; returns
`match ? match[1] : null`, so an undefined group would be returned as
given). -/
def URLParser.extractInstagramPostId (url : String) : Option String :=
  match igPattern.exec url with
  | some cap => cap
  | none => none

/-- Model of `URLParser.extractTikTokVideoId`. -/
def URLParser.extractTikTokVideoId (url : String) : Option String :=
  matchIdAux [ttPattern1, ttPattern2] url

/-- Model of `URLParser.extractLinkedInPostId`. -/
def URLParser.extractLinkedInPostId (url : String) : Option String :=
  matchIdAux [liPattern1, liPattern2] url

/-- Model of `URLParser.extractTwitterTweetId`. -/
def URLParser.extractTwitterTweetId (url : String) : Option String :=
  match twPattern.exec url with
  | some cap => cap
  | none => none

/-!
Data model (`types.ts`) and collaborator models.  In the TypeScript
interface `EmbedMetadata`, `type`, `platform` and `url` are declared
required, but `MetadataExtractor.extractBasicMetadata` builds the record
through `Partial<EmbedMetadata>` and an `as EmbedMetadata` cast, so at
runtime any field may be absent; the model therefore makes every field
optional, and claim C9 is the statement that the three required fields
are in fact always set.
-/

/-- The `type` enumeration of `EmbedMetadata`. -/
inductive ContentType where
  | video | image | article | audio | link
deriving DecidableEq

/-- The `author` sub-object of `EmbedMetadata`. -/
structure AuthorInfo where
  name : Option String := none
  url : Option String := none
  avatar : Option String := none
deriving DecidableEq

/-- The `provider` sub-object of `EmbedMetadata`. -/
structure ProviderInfo where
  name : String
  url : String
deriving DecidableEq

/-- The `embedData` payload produced by the YouTube parser. -/
structure YtEmbedData where
  videoId : String
  embedUrl : String
deriving DecidableEq

/-- The canonical extracted-content record of `types.ts`. -/
structure EmbedMetadata where
  title : Option String := none
  description : Option String := none
  image : Option String := none
  type : Option ContentType := none
  platform : Option Platform := none
  url : Option String := none
  embedData : Option YtEmbedData := none
  width : Option Int := none
  height : Option Int := none
  duration : Option Int := none
  author : Option AuthorInfo := none
  provider : Option ProviderInfo := none
deriving DecidableEq

/-- Model of a cheerio-loaded HTML document: the three attribute maps the
code queries (`meta[property=k]`, `meta[name=k]`, `meta[itemprop=k]`,
first match wins) plus the text of the first `title` element. -/
structure HtmlDoc where
  metaProperty : List (String × String) := []
  metaName : List (String × String) := []
  metaItemprop : List (String × String) := []
  titleText : String := ""
deriving DecidableEq

/-- The JSON body returned by the YouTube oEmbed endpoint; `response.data`
is untyped in the source, so every field may be absent. -/
structure OEmbedJson where
  title : Option String := none
  author_name : Option String := none
  author_url : Option String := none
  thumbnail_url : Option String := none
  width : Option Int := none
  height : Option Int := none
deriving DecidableEq

/-- One outbound network request: a page fetch (axios GET returning HTML)
or a platform oEmbed fetch (axios GET returning JSON). -/
inductive FetchEvent where
  | page : String → FetchEvent
  | oembed : String → FetchEvent
deriving DecidableEq

/-- The network: what each request URL returns in this run.  `Except.error`
models any axios failure (unresolvable host, connection error, timeout,
non-2xx status).  The request headers and the 10s/5s timeouts configured
by the source select this response but do not otherwise appear in the
model. -/
structure World where
  fetchHtml : String → Except String HtmlDoc
  fetchJson : String → Except String OEmbedJson

/-- JavaScript truthiness filter for an optional string: `null`,
`undefined` and the empty string are falsy. -/
def truthy (o : Option String) : Option String :=
  match o with
  | some s => if s = "" then none else some s
  | none => none

/-- Model of `a || b` where `a` is a possibly-absent string and `b` a
string. -/
def jsOrStr (a : Option String) (b : String) : String :=
  match truthy a with
  | some s => s
  | none => b

/-- Model of `a || b` where both operands are possibly-absent strings. -/
def jsOrOpt (a b : Option String) : Option String :=
  match truthy a with
  | some s => some s
  | none => b

/-- Model of `a || b` for the `type` field (a present enum value is always
truthy). -/
def jsOrCT (a : Option ContentType) (b : ContentType) : ContentType :=
  match a with
  | some v => v
  | none => b

/-- Model of `a || b` for numbers: `0` (and absence) is falsy. -/
def jsOrInt (a : Option Int) (b : Int) : Int :=
  match a with
  | some v => if v = 0 then b else v
  | none => b

/-- Template-literal interpolation of a possibly-undefined string: JS
renders `undefined` as the string "undefined". -/
def jsTemplate (o : Option String) : String :=
  match o with
  | some s => s
  | none => "undefined"

/-- Accumulate decimal digits, for `parseIntJs`. -/
def digitsToNat (l : List Char) : Nat :=
  l.foldl (fun acc c => acc * 10 + (c.toNat - 48)) 0

/-- Model of `parseInt(s, 10)`: skip leading whitespace, optional sign,
longest digit prefix; `none` models `NaN`.  (A `NaN` stored in the
`width`/`height` fields is modelled as the field being absent; no claim
depends on the difference.) -/
def parseIntJs (s : String) : Option Int :=
  let cs := s.toList.dropWhile Char.isWhitespace
  match cs with
  | '-' :: rest =>
    let ds := rest.takeWhile Char.isDigit
    if ds = [] then none else some (-(digitsToNat ds : Int))
  | '+' :: rest =>
    let ds := rest.takeWhile Char.isDigit
    if ds = [] then none else some ((digitsToNat ds : Int))
  | _ =>
    let ds := cs.takeWhile Char.isDigit
    if ds = [] then none else some ((digitsToNat ds : Int))

/-- Uppercase hexadecimal digit. -/
def hexDigitU (n : Nat) : Char :=
  if n < 10 then Char.ofNat (48 + n) else Char.ofNat (55 + n)

/-- UTF-8 bytes of a character. -/
def utf8Bytes (c : Char) : List Nat :=
  let n := c.toNat
  if n < 128 then [n]
  else if n < 2048 then [192 + n / 64, 128 + n % 64]
  else if n < 65536 then [224 + n / 4096, 128 + (n / 64) % 64, 128 + n % 64]
  else [240 + n / 262144, 128 + (n / 4096) % 64, 128 + (n / 64) % 64,
        128 + n % 64]

/-- Characters `encodeURIComponent` leaves unescaped: alphanumerics and
`- _ . ! ~ * ' ( )`. -/
def uriUnescaped (c : Char) : Bool :=
  c.isAlpha || c.isDigit || c = '-' || c = '_' || c = '.' || c = '!' ||
  c = '~' || c = '*' || c.toNat = 39 || c = '(' || c = ')'

/-- Model of `encodeURIComponent`. -/
def encodeURIComponent (s : String) : String :=
  String.mk (s.toList.foldr
    (fun c acc =>
      (if uriUnescaped c then [c]
       else (utf8Bytes c).foldr
         (fun b a => '%' :: hexDigitU (b / 16) :: hexDigitU (b % 16) :: a) [])
      ++ acc) [])

/-- First `content` attribute value for a key in one of the three maps. -/
def lookupAttr (l : List (String × String)) (key : String) : Option String :=
  (l.find? (fun kv => kv.1 = key)).map (fun kv => kv.2)

/-- Model of `MetadataExtractor.extractMetaContent`: for each selector in
order probe `meta[property]`, then `meta[name]`, then `meta[itemprop]`;
a falsy (absent or empty) content falls through; a truthy one is
returned trimmed. -/
def MetadataExtractor.extractMetaContent (doc : HtmlDoc) :
    List String → Option String
  | [] => none
  | sel :: rest =>
    match truthy (lookupAttr doc.metaProperty sel) with
    | some c => some (jsTrim c)
    | none =>
      match truthy (lookupAttr doc.metaName sel) with
      | some c => some (jsTrim c)
      | none =>
        match truthy (lookupAttr doc.metaItemprop sel) with
        | some c => some (jsTrim c)
        | none => MetadataExtractor.extractMetaContent doc rest

/-- Model of `MetadataExtractor.getDomainFromUrl`: the hostname with the
first occurrence of the substring "www." removed (per JavaScript
`String.prototype.replace` with a string pattern), or "Unknown" when the
URL does not parse. -/
def MetadataExtractor.getDomainFromUrl (url : String) : String :=
  match parseList url.toList with
  | some u => jsRemove u.hostname ("www.")
  | none => "Unknown"

/-- The `og:type` switch of `extractOpenGraph` (on the lower-cased value;
only the enumerated values are recognised). -/
def ogTypeMap (ogType : String) : ContentType :=
  let t := jsToLower ogType
  if t = "video" || t = "video.movie" || t = "video.episode" ||
     t = "video.tv_show" || t = "video.other" then ContentType.video
  else if t = "music" || t = "music.song" || t = "music.album" ||
          t = "music.playlist" then ContentType.audio
  else if t = "article" || t = "blog" || t = "news" then ContentType.article
  else ContentType.link

/-- The `twitter:card` switch of `extractTwitterCards`. -/
def twCardMap (cardType : String) : ContentType :=
  let t := jsToLower cardType
  if t = "player" then ContentType.video
  else if t = "summary_large_image" || t = "summary" then ContentType.article
  else ContentType.link

/-- Model of `new URL(rel, base).toString()` for the use in this code
base, where `base` is always an origin string (path `/`): an absolute
`rel` stands alone; a protocol-relative, root-relative or path-relative
`rel` is resolved against the base.  `none` models the constructor
throwing.  (Dot-segment normalisation is outside the model.) -/
def resolveUrl (r base : String) : Option String :=
  match parseList r.toList with
  | some abs => some (String.mk abs.toStr)
  | none =>
    match parseList base.toList with
    | some b =>
      if b.isSpecial then
        let cs := r.toList
        let resolved :=
          if startsWithL ['/', '/'] cs then b.scheme ++ ':' :: cs
          else if startsWithL ['/'] cs then
            b.scheme ++ ':' :: '/' :: '/' :: b.host ++ cs
          else b.scheme ++ ':' :: '/' :: '/' :: b.host ++ '/' :: cs
        (parseList resolved).map (fun u => String.mk u.toStr)
      else none
    | none => none

/-- The degraded record returned by the `catch` blocks of
`extractOpenGraph` and `extractTwitterCards`. -/
def ogFallback (url : String) : EmbedMetadata :=
  { url := some url, platform := some Platform.generic,
    type := some ContentType.link,
    title := some (MetadataExtractor.getDomainFromUrl url) }

/-- The pure middle of the `try` body of
`MetadataExtractor.extractOpenGraph`: the record built field by field
from the fetched document (the source updates one `metadata` object in
place; the chain `m0`..`m7` mirrors those assignments in order). -/
def ogBuildRecord (doc : HtmlDoc) (url : String) : EmbedMetadata :=
  let m0 : EmbedMetadata :=
    { url := some url, platform := some Platform.generic,
      type := some ContentType.link }
  let titleV :=
    jsOrStr
      (MetadataExtractor.extractMetaContent doc
        [("og:title"), ("twitter:title"), ("title")])
      (jsTrim doc.titleText)
  let m1 := { m0 with title := some titleV }
  let descV :=
    truthy (MetadataExtractor.extractMetaContent doc
      [("og:description"), ("twitter:description"), ("description")])
  let m2 := { m1 with description := descV }
  let imgV :=
    truthy (MetadataExtractor.extractMetaContent doc
      [("og:image"), ("twitter:image"), ("twitter:image:src")])
  let m3 := { m2 with image := imgV }
  let m4 :=
    match truthy (MetadataExtractor.extractMetaContent doc [("og:type")]) with
    | some ogType => { m3 with type := some (ogTypeMap ogType) }
    | none => m3
  let m5 :=
    match truthy (MetadataExtractor.extractMetaContent doc
      [("og:video:width"), ("twitter:player:width")]) with
    | some wd => { m4 with width := parseIntJs wd }
    | none => m4
  let m6 :=
    match truthy (MetadataExtractor.extractMetaContent doc
      [("og:video:height"), ("twitter:player:height")]) with
    | some ht => { m5 with height := parseIntJs ht }
    | none => m5
  let m7 :=
    match truthy (MetadataExtractor.extractMetaContent doc
      [("og:site_name"), ("twitter:site"), ("author")]) with
    | some an => { m6 with author := some { name := some (jsRemove an ("@")) } }
    | none => m6
  m7

/-- The image-absolutisation tail of the `try` body: when the extracted
image is truthy and does not start with "http", it is resolved against
the page origin; a throw of `new URL` here reaches the `catch`. -/
def ogAbsolutiseImage (m7 : EmbedMetadata) (url : String) :
    Except String EmbedMetadata :=
  match truthy m7.image with
  | some img =>
    if !(jsStartsWith img ("http")) then
      match parseList url.toList with
      | some baseUrl =>
        match resolveUrl img baseUrl.origin with
        | some abs => Except.ok { m7 with image := some abs }
        | none => Except.error ("Invalid URL")
      | none => Except.error ("Invalid URL")
    else Except.ok m7
  | none => Except.ok m7

/-- The `try` body of `MetadataExtractor.extractOpenGraph`: fetch, build
the record field by field, then absolutise a relative image URL against
the page origin.  `Except.error` models an exception reaching the
`catch` (fetch failure, or `new URL` throwing during image resolution). -/
def MetadataExtractor.extractOpenGraphCore (w : World) (url : String) :
    Except String EmbedMetadata := do
  let doc ← w.fetchHtml url
  ogAbsolutiseImage (ogBuildRecord doc url) url

/-- Model of `MetadataExtractor.extractOpenGraph` (total: its `catch`
returns the degraded record), paired with its fetch trace. -/
def MetadataExtractor.extractOpenGraph (w : World) (url : String) :
    EmbedMetadata × List FetchEvent :=
  (match MetadataExtractor.extractOpenGraphCore w url with
   | Except.ok m => m
   | Except.error _ => ogFallback url,
   [FetchEvent.page url])

/-- The `try` body of `MetadataExtractor.extractTwitterCards` (the fetch
goes to the same URL as the OpenGraph fetch, with fewer headers). -/
def MetadataExtractor.extractTwitterCardsCore (w : World) (url : String) :
    Except String EmbedMetadata := do
  let doc ← w.fetchHtml url
  let m0 : EmbedMetadata :=
    { url := some url, platform := some Platform.generic,
      type := some ContentType.link }
  let titleV :=
    jsOrStr
      (MetadataExtractor.extractMetaContent doc [("twitter:title")])
      (jsTrim doc.titleText)
  let m1 := { m0 with title := some titleV }
  let descV :=
    truthy (MetadataExtractor.extractMetaContent doc
      [("twitter:description")])
  let m2 := { m1 with description := descV }
  let imgV :=
    truthy (MetadataExtractor.extractMetaContent doc
      [("twitter:image"), ("twitter:image:src")])
  let m3 := { m2 with image := imgV }
  let m4 :=
    match truthy (MetadataExtractor.extractMetaContent doc
      [("twitter:card")]) with
    | some ct => { m3 with type := some (twCardMap ct) }
    | none => m3
  return m4

/-- Model of `MetadataExtractor.extractTwitterCards`, with trace. -/
def MetadataExtractor.extractTwitterCards (w : World) (url : String) :
    EmbedMetadata × List FetchEvent :=
  (match MetadataExtractor.extractTwitterCardsCore w url with
   | Except.ok m => m
   | Except.error _ => ogFallback url,
   [FetchEvent.page url])

/-- Model of `MetadataExtractor.extractBasicMetadata`: OpenGraph first;
when its title or description is falsy, fetch again for Twitter Cards
and merge with OpenGraph priority. -/
def MetadataExtractor.extractBasicMetadata (w : World) (url : String) :
    EmbedMetadata × List FetchEvent :=
  let (ogMetadata, t1) := MetadataExtractor.extractOpenGraph w url
  if truthy ogMetadata.title = none || truthy ogMetadata.description = none then
    let (twitterMetadata, t2) := MetadataExtractor.extractTwitterCards w url
    ({ title := some (jsOrStr ogMetadata.title
         (jsOrStr twitterMetadata.title
           (MetadataExtractor.getDomainFromUrl url))),
       description := jsOrOpt ogMetadata.description twitterMetadata.description,
       image := jsOrOpt ogMetadata.image twitterMetadata.image,
       type := some (jsOrCT ogMetadata.type
         (jsOrCT twitterMetadata.type ContentType.link)),
       platform := some Platform.generic,
       url := some url,
       author := ogMetadata.author,
       width := ogMetadata.width,
       height := ogMetadata.height }, t1 ++ t2)
  else (ogMetadata, t1)

/-- Options accepted by `renderEmbed` / `generateEmbed`. -/
structure RenderOptions where
  width : Option Int := none
  height : Option Int := none
  autoplay : Option Bool := none
  controls : Option Bool := none
  theme : Option String := none
deriving DecidableEq

/-- Options accepted by `getOEmbed`. -/
structure OEmbedOptions where
  maxwidth : Option Int := none
  maxheight : Option Int := none
deriving DecidableEq

/-- The oEmbed `type` values. -/
inductive OEmbedType where
  | rich | video | photo | link
deriving DecidableEq

/-- The oEmbed envelope of `types.ts`. -/
structure OEmbedResponse where
  type : OEmbedType
  version : String
  html : String
  width : Int
  height : Int
  title : Option String
  author_name : Option String
  author_url : Option String
  provider_name : String
  provider_url : Option String
  cache_age : Int
  thumbnail_url : Option String := none
  thumbnail_width : Option Int := none
  thumbnail_height : Option Int := none
deriving DecidableEq

/-- The `PlatformParser` interface of `types.ts`, plus an `isGeneric` tag
modelling the runtime `instanceof GenericParser` test used by the
orchestrator. -/
structure PlatformParser where
  canHandle : String → Bool
  extractMetadata : World → String → Except String EmbedMetadata × List FetchEvent
  generateEmbed : EmbedMetadata → RenderOptions → String
  isGeneric : Bool

/-- Model of `GenericParser.getDomainFromUrl` (textually identical to the
`MetadataExtractor` helper of the same name). -/
def GenericParser.getDomainFromUrl (url : String) : String :=
  match parseList url.toList with
  | some u => jsRemove u.hostname ("www.")
  | none => "Unknown"

/-- Model of `GenericParser.getBaseUrl`: `protocol + "//" + hostname`. -/
def GenericParser.getBaseUrl (url : String) : String :=
  match parseList url.toList with
  | some u => String.mk (u.scheme ++ ':' :: '/' :: '/' :: u.host)
  | none => url

/-- Model of `GenericParser.getFaviconUrl`. -/
def GenericParser.getFaviconUrl (url : String) : Option String :=
  match parseList url.toList with
  | some u =>
    some (String.mk (u.scheme ++ ':' :: '/' :: '/' :: u.host) ++ "/favicon.ico")
  | none => none

/-- Model of `GenericParser.extractMetadata`, with trace.  It is total:
`extractBasicMetadata` never throws (its callees catch their own
failures), so the `catch` block of the source method is unreachable. -/
def GenericParser.extractMetadata (w : World) (url : String) :
    EmbedMetadata × List FetchEvent :=
  let (metadata, tr) := MetadataExtractor.extractBasicMetadata w url
  ({ metadata with
      platform := some Platform.generic,
      provider := some { name := GenericParser.getDomainFromUrl url,
                         url := GenericParser.getBaseUrl url } }, tr)

/-- Model of `GenericParser.generateEmbed`.  The bordered-card HTML
template of the source is abbreviated to its load-bearing data; it is
pure string interpolation, performs no I/O, and no claim inspects the
markup. -/
def GenericParser.generateEmbed (metadata : EmbedMetadata)
    (options : RenderOptions) : String :=
  let maxWidth := jsOrInt options.width 500
  "<generic-embed maxWidth=" ++ toString maxWidth ++
  " title=" ++ jsTemplate metadata.title ++
  " provider=" ++ (match metadata.provider with
                   | some p => p.name
                   | none => GenericParser.getDomainFromUrl (jsTemplate metadata.url)) ++
  ">"

/-- The generic parser instance (`canHandle` is always true). -/
def genericParser : PlatformParser :=
  { canHandle := fun _ => true,
    extractMetadata := fun w url =>
      let (m, tr) := GenericParser.extractMetadata w url
      (Except.ok m, tr),
    generateEmbed := GenericParser.generateEmbed,
    isGeneric := true }

/-- The `OEMBED_ENDPOINT` constant of the YouTube parser. -/
def YouTubeParser.OEMBED_ENDPOINT : String :=
  "https://www.youtube.com/oembed"

/-- The `THUMBNAIL_BASE` constant of the YouTube parser. -/
def YouTubeParser.THUMBNAIL_BASE : String :=
  "https://img.youtube.com/vi"

/-- The oEmbed request URL built by `fetchOEmbedData`. -/
def YouTubeParser.oembedRequestUrl (url : String) : String :=
  YouTubeParser.OEMBED_ENDPOINT ++ "?url=" ++ encodeURIComponent url ++
  "&format=json"

/-- Model of `YouTubeParser.fetchOEmbedData`: one oEmbed fetch; any axios
failure is caught and becomes `null` (`none`). -/
def YouTubeParser.fetchOEmbedData (w : World) (url : String) :
    Option OEmbedJson × List FetchEvent :=
  let oembedUrl := YouTubeParser.oembedRequestUrl url
  (match w.fetchJson oembedUrl with
   | Except.ok d => some d
   | Except.error _ => none,
   [FetchEvent.oembed oembedUrl])

/-- Model of `YouTubeParser.getThumbnailUrl` at its default quality. -/
def YouTubeParser.getThumbnailUrl (videoId : String) : String :=
  YouTubeParser.THUMBNAIL_BASE ++ "/" ++ videoId ++ "/hqdefault.jpg"

/-- Model of `YouTubeParser.extractBasicVideoInfo`, the no-network
fallback used when the oEmbed call fails. -/
def YouTubeParser.extractBasicVideoInfo (videoId url : String) :
    EmbedMetadata :=
  { title := some ("YouTube Video"),
    description := some ("Watch this video on YouTube"),
    image := some (YouTubeParser.getThumbnailUrl videoId),
    type := some ContentType.video,
    platform := some Platform.youtube,
    url := some url,
    width := some 560,
    height := some 315,
    provider := some { name := "YouTube", url := "https://youtube.com" },
    embedData := some { videoId := videoId,
                        embedUrl := "https://www.youtube.com/embed/" ++ videoId } }

/-- Model of `YouTubeParser.extractMetadata`.  A URL from which no video
id can be extracted raises "Invalid YouTube URL"; otherwise the oEmbed
endpoint is tried and its failure degrades to `extractBasicVideoInfo`.
Nothing inside the `try` can throw (`fetchOEmbedData` catches its own
failures and returns null), so the `catch` block of the source, which
would return a minimal record without dimensions, is unreachable and is
not modelled. -/
def YouTubeParser.extractMetadata (w : World) (url : String) :
    Except String EmbedMetadata × List FetchEvent :=
  match URLParser.extractYouTubeVideoId url with
  | none => (Except.error ("Invalid YouTube URL"), [])
  | some videoId =>
    let (od, tr) := YouTubeParser.fetchOEmbedData w url
    match od with
    | some oembedData =>
      (Except.ok
        { title := oembedData.title,
          description := some ("Watch \"" ++ jsTemplate oembedData.title ++
            "\" by " ++ jsTemplate oembedData.author_name),
          image := oembedData.thumbnail_url,
          type := some ContentType.video,
          platform := some Platform.youtube,
          url := some url,
          width := oembedData.width,
          height := oembedData.height,
          author := some { name := oembedData.author_name,
                           url := oembedData.author_url },
          provider := some { name := "YouTube", url := "https://youtube.com" },
          embedData := some { videoId := videoId,
                              embedUrl := "https://www.youtube.com/embed/" ++ videoId } },
       tr)
    | none => (Except.ok (YouTubeParser.extractBasicVideoInfo videoId url), tr)

/-- Model of `YouTubeParser.generateLinkPreview` (template abbreviated;
pure string interpolation, inspected by no claim). -/
def YouTubeParser.generateLinkPreview (metadata : EmbedMetadata) : String :=
  "<youtube-link-preview title=" ++ jsTemplate metadata.title ++ ">"

/-- Model of `YouTubeParser.generateEmbed`: with `embedData` it emits the
interactive player document, otherwise the link-preview card.  The large
HTML/JS template is abbreviated to its load-bearing data; it is pure
string interpolation and performs no I/O.  (The repository contains two
variants of this class whose `extractMetadata` bodies are identical and
whose templates differ; neither template is inspected by a claim.) -/
def YouTubeParser.generateEmbed (metadata : EmbedMetadata)
    (options : RenderOptions) : String :=
  match metadata.embedData with
  | none => YouTubeParser.generateLinkPreview metadata
  | some ed =>
    let width := jsOrInt options.width (jsOrInt metadata.width 560)
    let height := jsOrInt options.height (jsOrInt metadata.height 315)
    "<youtube-embed videoId=" ++ ed.videoId ++ " embedUrl=" ++ ed.embedUrl ++
    " width=" ++ toString width ++ " height=" ++ toString height ++ ">"

/-- The YouTube parser instance; `canHandle` delegates to
`URLParser.detectPlatform`. -/
def youtubeParser : PlatformParser :=
  { canHandle := fun url =>
      decide (URLParser.detectPlatform url = Platform.youtube),
    extractMetadata := YouTubeParser.extractMetadata,
    generateEmbed := YouTubeParser.generateEmbed,
    isGeneric := false }

/-- The `EmbedService` class: its only state is the parser list set by
the constructor. -/
structure EmbedService where
  parsers : List PlatformParser

/-- The singleton service instance built by the constructor: YouTube
parser first, generic parser last as fallback. -/
def embedService : EmbedService :=
  { parsers := [youtubeParser, genericParser] }

/-- Model of `EmbedService.findParser`. -/
def EmbedService.findParser (svc : EmbedService) (url : String) :
    Option PlatformParser :=
  svc.parsers.find? (fun p => p.canHandle url)

/-- Model of `EmbedService.extractMetadata`: validate, normalise, select
the first parser whose `canHandle` accepts the normalised URL, run it;
on failure of a non-generic parser, retry once with a fresh
`GenericParser` (which never throws, so that branch always succeeds). -/
def EmbedService.extractMetadata (svc : EmbedService) (w : World)
    (url : String) : Except String EmbedMetadata × List FetchEvent :=
  if !(URLParser.isValidUrl url) then
    (Except.error ("Invalid URL provided"), [])
  else
    let normalizedUrl := URLParser.normalizeUrl url
    match svc.findParser normalizedUrl with
    | none => (Except.error ("No suitable parser found for URL"), [])
    | some parser =>
      match parser.extractMetadata w normalizedUrl with
      | (Except.ok metadata, tr) =>
        (Except.ok { metadata with url := some normalizedUrl }, tr)
      | (Except.error e, tr) =>
        if parser.isGeneric then (Except.error e, tr)
        else
          let (r2, tr2) := genericParser.extractMetadata w normalizedUrl
          (r2, tr ++ tr2)

/-- Model of `EmbedService.mapTypeToOEmbed` (`metadata.type` is a string
at runtime; an absent value falls to the default case). -/
def EmbedService.mapTypeToOEmbed (t : Option ContentType) : OEmbedType :=
  match t with
  | some ContentType.video => OEmbedType.video
  | some ContentType.image => OEmbedType.photo
  | some ContentType.article => OEmbedType.rich
  | some ContentType.audio => OEmbedType.rich
  | _ => OEmbedType.link

/-- Model of `EmbedService.getOEmbed`.  Note that the parser re-selection
deliberately mirrors the source and runs on the original (not the
normalised) URL. -/
def EmbedService.getOEmbed (svc : EmbedService) (w : World) (url : String)
    (options : OEmbedOptions) : Except String OEmbedResponse × List FetchEvent :=
  match svc.extractMetadata w url with
  | (Except.error e, tr) => (Except.error e, tr)
  | (Except.ok metadata, tr) =>
    match svc.findParser url with
    | none => (Except.error ("No suitable parser found for URL"), tr)
    | some parser =>
      let renderOptions : RenderOptions :=
        { width := options.maxwidth, height := options.maxheight }
      let html := parser.generateEmbed metadata renderOptions
      let width := jsOrInt renderOptions.width (jsOrInt metadata.width 500)
      let height := jsOrInt renderOptions.height (jsOrInt metadata.height 300)
      let base : OEmbedResponse :=
        { type := EmbedService.mapTypeToOEmbed metadata.type,
          version := "1.0",
          html := html,
          width := width,
          height := height,
          title := metadata.title,
          author_name := metadata.author.bind (fun a => a.name),
          author_url := metadata.author.bind (fun a => a.url),
          provider_name := (match metadata.provider with
                            | some p => if p.name = "" then "External Content" else p.name
                            | none => "External Content"),
          provider_url := metadata.provider.map (fun p => p.url),
          cache_age := 3600 }
      let resp :=
        match truthy metadata.image with
        | some img =>
          if metadata.type = some ContentType.video ||
             metadata.type = some ContentType.image then
            { base with thumbnail_url := some img,
                        thumbnail_width := metadata.width,
                        thumbnail_height := metadata.height }
          else base
        | none => base
      (Except.ok resp, tr)

/-- Model of `EmbedService.renderEmbed`: extract, re-select (again on
the original URL), render. -/
def EmbedService.renderEmbed (svc : EmbedService) (w : World) (url : String)
    (options : RenderOptions) : Except String String × List FetchEvent :=
  match svc.extractMetadata w url with
  | (Except.error e, tr) => (Except.error e, tr)
  | (Except.ok metadata, tr) =>
    match svc.findParser url with
    | none => (Except.error ("No suitable parser found for URL"), tr)
    | some parser => (Except.ok (parser.generateEmbed metadata options), tr)

/-- Whether an `Except` result is a success. -/
def exceptOk {ε α : Type} : Except ε α → Bool
  | Except.ok _ => true
  | Except.error _ => false

deriving instance DecidableEq for Except

/-- A network on which every request fails (unresolvable host /
connection error / timeout all look alike to the code). -/
def failWorld : World :=
  { fetchHtml := fun _ => Except.error ("ENOTFOUND"),
    fetchJson := fun _ => Except.error ("ENOTFOUND") }

/-- A network on which every page fetch returns the given document and
every JSON fetch fails. -/
def htmlWorld (d : HtmlDoc) : World :=
  { fetchHtml := fun _ => Except.ok d,
    fetchJson := fun _ => Except.error ("no json") }

/-- A document with no metadata at all (empty title, no meta tags). -/
def emptyDoc : HtmlDoc := {}

/-- A document typed `video.clip` in OpenGraph — a `video*` value outside
the enumeration recognised by the code. -/
def videoClipDoc : HtmlDoc :=
  { metaProperty := [("og:title", "T"), ("og:description", "D"),
                     ("og:type", "video.clip")] }

/-- A document typed `article` in OpenGraph. -/
def articleDoc : HtmlDoc :=
  { metaProperty := [("og:title", "T"), ("og:description", "D"),
                     ("og:type", "article")] }

/-- A document whose OpenGraph image is the relative path
`httpfoo.png`, which begins with the four characters "http". -/
def httpRelImageDoc : HtmlDoc :=
  { metaProperty := [("og:title", "T"), ("og:description", "D"),
                     ("og:image", "httpfoo.png")] }

/-- A document whose OpenGraph image is the root-relative path
`/img/x.png`. -/
def relImageDoc : HtmlDoc :=
  { metaProperty := [("og:title", "T"), ("og:description", "D"),
                     ("og:image", "/img/x.png")] }

/-- A parser that accepts every URL and always throws; used to exercise
the fallback branch of the orchestrator, which is unreachable with the
two parsers the constructor installs (the YouTube parser never throws on
a URL it accepts, see C10). -/
def failingParser : PlatformParser :=
  { canHandle := fun _ => true,
    extractMetadata := fun _ _ => (Except.error ("boom"), []),
    generateEmbed := fun _ _ => "",
    isGeneric := false }

/-- Modelled from the spec: the "domain name" of a URL against which the
spec compares the degraded title — the hostname, with a leading "www."
prefix stripped.  (The code instead removes the first occurrence of the
substring "www." anywhere in the hostname; claim C1 compares the two.) -/
def specDomainName (url : String) : Option String :=
  (parseList url.toList).map
    (fun u =>
      if startsWithL ("www.".toList) u.host then String.mk (u.host.drop 4)
      else u.hostname)

/-- Modelled from the spec: the fetch sequence claim C3 asserts for every
call — "the platform oEmbed attempt, then possibly one page fetch for
the generic fallback". -/
def specFetchShapeB : List FetchEvent → Bool
  | [] => true
  | [FetchEvent.oembed _] => true
  | [FetchEvent.oembed _, FetchEvent.page _] => true
  | _ => false

/-- The fetch sequences the code can actually produce for one call with
normalised URL `n`: nothing (invalid URL), one oEmbed attempt (YouTube),
one page fetch (generic, OpenGraph only), or two page fetches (generic,
OpenGraph plus the Twitter-Card merge). -/
def admissibleTrace (n : String) (t : List FetchEvent) : Prop :=
  t = [] ∨
  t = [FetchEvent.oembed (YouTubeParser.oembedRequestUrl n)] ∨
  t = [FetchEvent.page n] ∨
  t = [FetchEvent.page n, FetchEvent.page n]

/-- The three fields `types.ts` declares required on `EmbedMetadata`:
`type`, `platform` and `url` are all present. -/
def requiredFieldsOk (m : EmbedMetadata) : Bool :=
  m.type.isSome && m.platform.isSome && m.url.isSome

/-!
Lemmas about the list combinators, the URL model and the query
re-serialisation, culminating in the serialise/reparse round trip
(`parse_toStr`) and the idempotence of `normalizeUrl`.
-/

/-! Helper lemmas about the list combinators used by the URL model. -/

theorem takeWhile_all_eq {p : Char → Bool} :
    ∀ {xs : List Char}, xs.all p = true → xs.takeWhile p = xs := by
  intro xs h
  induction xs with
  | nil => rfl
  | cons c t ih =>
    simp only [List.all_cons, Bool.and_eq_true] at h
    simp [List.takeWhile_cons, h.1, ih h.2]

theorem dropWhile_all_eq {p : Char → Bool} :
    ∀ {xs : List Char}, xs.all p = true → xs.dropWhile p = [] := by
  intro xs h
  induction xs with
  | nil => rfl
  | cons c t ih =>
    simp only [List.all_cons, Bool.and_eq_true] at h
    simp [List.dropWhile_cons, h.1, ih h.2]

theorem takeWhile_append_stop {p : Char → Bool} :
    ∀ {xs : List Char} {y : Char} {ys : List Char}, xs.all p = true →
      p y = false → (xs ++ y :: ys).takeWhile p = xs := by
  intro xs y ys hx hy
  induction xs with
  | nil => simp [List.takeWhile_cons, hy]
  | cons c t ih =>
    simp only [List.all_cons, Bool.and_eq_true] at hx
    simp [List.takeWhile_cons, hx.1, ih hx.2]

theorem dropWhile_append_stop {p : Char → Bool} :
    ∀ {xs : List Char} {y : Char} {ys : List Char}, xs.all p = true →
      p y = false → (xs ++ y :: ys).dropWhile p = y :: ys := by
  intro xs y ys hx hy
  induction xs with
  | nil => simp [List.dropWhile_cons, hy]
  | cons c t ih =>
    simp only [List.all_cons, Bool.and_eq_true] at hx
    simp [List.dropWhile_cons, hx.1, ih hx.2]

theorem splitFirst_append {c : Char} :
    ∀ {xs ys : List Char}, xs.all (fun x => !(x = c)) = true →
      splitFirst c (xs ++ c :: ys) = some (xs, ys) := by
  intro xs ys hx
  induction xs with
  | nil => simp [splitFirst]
  | cons a t ih =>
    simp only [List.all_cons, Bool.and_eq_true] at hx
    have ha : ¬(a = c) := by
      intro hac
      simp [hac] at hx
    simp [splitFirst, ha, ih hx.2]

/-- Claim C5 helper: `normalizeUrl` on the parse-failure path. -/
theorem normalizeUrl_parse_failure (u : String)
    (h : parseList (withScheme u).toList = none) :
    URLParser.normalizeUrl u = withScheme u := by
  unfold URLParser.normalizeUrl
  simp only [String.toList] at h
  simp [h]

theorem takeWhile_all_self {p : Char → Bool} :
    ∀ {l : List Char}, (l.takeWhile p).all p = true := by
  intro l
  induction l with
  | nil => rfl
  | cons c t ih =>
    by_cases hc : p c
    · simp [List.takeWhile_cons, hc, ih]
    · simp [List.takeWhile_cons, hc]

theorem dropWhile_cases (p : Char → Bool) (l : List Char) :
    l.dropWhile p = [] ∨
    ∃ a t, l.dropWhile p = a :: t ∧ p a = false := by
  induction l with
  | nil => exact Or.inl rfl
  | cons c t ih =>
    by_cases hc : p c
    · simpa [List.dropWhile_cons, hc] using ih
    · right
      exact ⟨c, t, by simp [List.dropWhile_cons, hc], by simp [hc]⟩

theorem all_of_any_false {l : List Char} {q p : Char → Bool}
    (h : l.any q = false) (himp : ∀ c, q c = false → p c = true) :
    l.all p = true := by
  rw [List.all_eq_true]
  intro c hc
  have hqc : q c = false := by
    rw [List.any_eq_false] at h
    simpa using h c hc
  exact himp c hqc

theorem not_forbidden_facts {c : Char} (h : forbiddenHostChar c = false) :
    c ≠ '/' ∧ c ≠ '?' ∧ c ≠ '#' := by
  refine ⟨?_, ?_, ?_⟩ <;> intro he <;> subst he <;> exact absurd h (by decide)

theorem notAuthEnd_of_not_forbidden {c : Char}
    (h : forbiddenHostChar c = false) : notAuthEnd c = true := by
  obtain ⟨h1, h2, h3⟩ := not_forbidden_facts h
  simp [notAuthEnd, h1, h2, h3]

theorem schemeCharOk_ne_colon {c : Char} (h : schemeCharOk c = true) :
    c ≠ ':' := by
  intro he
  subst he
  exact absurd h (by decide)

theorem parseQF_query_all {l : List Char} {q f : Option (List Char)}
    (h : parseQF l = (q, f)) :
    ∀ x, q = some x → x.all (fun c => !(c = '#')) = true := by
  intro x hx
  unfold parseQF at h
  split at h
  · cases h
    cases hx
    exact takeWhile_all_self
  · cases h
    cases hx
  · cases h
    cases hx

/-- Invariants of every URL record produced by `parseList`, sufficient for
serialisation to parse back to the same record. -/
structure GoodUrl (u : UrlObj) : Prop where
  scheme_ok : schemeOkB u.scheme = true
  host_nonempty : u.isSpecial = true → u.host ≠ []
  host_ok : u.isSpecial = true → u.host.any forbiddenHostChar = false
  host_opaque : u.isSpecial = false → u.host = []
  path_head : u.isSpecial = true → ∃ t, u.path = '/' :: t
  path_ok : u.path.all notQF = true
  query_ok : ∀ q, u.query = some q → q.all (fun c => !(c = '#')) = true

theorem good_of_parseSpecial {sch rest : List Char} {u : UrlObj}
    (hs : schemeOkB sch = true) (hsp : isSpecialScheme sch = true)
    (h : parseSpecialRest sch rest = some u) : GoodUrl u := by
  simp only [parseSpecialRest] at h
  split at h
  · exact absurd h (by simp)
  case isFalse hguard =>
    rw [Bool.or_eq_true, not_or] at hguard
    obtain ⟨hne, hfb⟩ := hguard
    rw [Bool.not_eq_true] at hne hfb
    set rest1 := rest.dropWhile (fun c => c = '/') with hr1
    set auth := rest1.takeWhile notAuthEnd with hauth
    set after := rest1.dropWhile notAuthEnd with hafter
    set pcs := after.takeWhile notQF with hpcs
    set qf := after.dropWhile notQF with hqf
    rcases hq : parseQF qf with ⟨q, f⟩
    rw [hq] at h
    simp only [] at h
    cases h
    have hspec : UrlObj.isSpecial
        { scheme := sch, host := auth,
          path := if pcs = [] then ['/'] else pcs,
          query := q, fragment := f } = true := by
      simpa [UrlObj.isSpecial] using hsp
    refine ⟨hs, ?_, ?_, ?_, ?_, ?_, ?_⟩
    · intro _
      exact of_decide_eq_false hne
    · intro _
      exact hfb
    · intro hc
      rw [hspec] at hc
      cases hc
    · intro _
      by_cases hp : pcs = []
      · simp only [hp, if_pos rfl]
        exact ⟨[], rfl⟩
      · simp only [if_neg hp]
        rcases dropWhile_cases notAuthEnd rest1 with hnil | ⟨a, t, heq, hfa⟩
        · exfalso
          apply hp
          rw [hpcs, hafter, hnil]
          rfl
        · rw [hpcs, hafter, heq]
          rw [hpcs, hafter, heq] at hp
          by_cases h1 : a = '/'
          · subst h1
            simp [List.takeWhile_cons, notQF]
          · by_cases h2 : a = '?'
            · subst h2
              simp [List.takeWhile_cons, notQF] at hp
            · by_cases h3 : a = '#'
              · subst h3
                simp [List.takeWhile_cons, notQF] at hp
              · exfalso
                unfold notAuthEnd at hfa
                simp [h1, h2, h3] at hfa
    · by_cases hp : pcs = []
      · simp only [hp, if_pos rfl]
        decide
      · simp only [if_neg hp, hpcs]
        exact takeWhile_all_self
    · exact parseQF_query_all hq

theorem scheme_no_colon {sch : List Char} (h : schemeOkB sch = true) :
    sch.all (fun x => !(x = ':')) = true := by
  cases sch with
  | nil => rfl
  | cons c cs =>
    simp only [schemeOkB, Bool.and_eq_true] at h
    rw [List.all_eq_true]
    intro x hx
    have hco : schemeCharOk x = true := List.all_eq_true.mp h.2 x hx
    simpa using schemeCharOk_ne_colon hco

theorem good_of_parseOpaque {sch rest : List Char}
    (hs : schemeOkB sch = true) (hsp : isSpecialScheme sch = false) :
    GoodUrl (parseOpaqueRest sch rest) := by
  simp only [parseOpaqueRest]
  rcases hq : parseQF (rest.dropWhile notQF) with ⟨q, f⟩
  simp only [hq]
  have hspec : UrlObj.isSpecial
      { scheme := sch, host := [], path := rest.takeWhile notQF,
        query := q, fragment := f } = false := by
    simpa [UrlObj.isSpecial] using hsp
  refine ⟨hs, ?_, ?_, ?_, ?_, ?_, ?_⟩
  · intro hc
    rw [hspec] at hc
    cases hc
  · intro hc
    rw [hspec] at hc
    cases hc
  · intro _
    rfl
  · intro hc
    rw [hspec] at hc
    cases hc
  · exact takeWhile_all_self
  · exact parseQF_query_all hq

theorem good_of_parse {cs : List Char} {u : UrlObj}
    (h : parseList cs = some u) : GoodUrl u := by
  unfold parseList at h
  split at h
  · cases h
  · rename_i x sch rest heq
    by_cases hs : schemeOkB sch = true
    · rw [if_pos hs] at h
      by_cases hss : isSpecialScheme sch = true
      · rw [if_pos hss] at h
        exact good_of_parseSpecial hs hss h
      · rw [if_neg hss] at h
        cases h
        exact good_of_parseOpaque hs (by rwa [Bool.not_eq_true] at hss)
    · rw [if_neg hs] at h
      cases h

theorem tail_roundtrip {path : List Char} (hpo : path.all notQF = true)
    {query : Option (List Char)} (frag : Option (List Char))
    (hqo : ∀ x, query = some x → x.all (fun c => !(c = '#')) = true) :
    (path ++ qfStr query frag).takeWhile notQF = path ∧
    parseQF ((path ++ qfStr query frag).dropWhile notQF) = (query, frag) := by
  rcases query with _ | q
  · rcases frag with _ | f
    · simp only [qfStr, List.append_nil]
      refine ⟨takeWhile_all_eq hpo, ?_⟩
      rw [dropWhile_all_eq hpo]
      rfl
    · simp only [qfStr, List.nil_append]
      refine ⟨takeWhile_append_stop hpo (by decide), ?_⟩
      rw [dropWhile_append_stop hpo (by decide)]
      rfl
  · have hq := hqo q rfl
    rcases frag with _ | f
    · simp only [qfStr, List.append_nil]
      refine ⟨takeWhile_append_stop hpo (by decide), ?_⟩
      rw [dropWhile_append_stop hpo (by decide)]
      simp only [parseQF]
      rw [takeWhile_all_eq hq, dropWhile_all_eq hq]
    · simp only [qfStr, List.cons_append]
      refine ⟨takeWhile_append_stop hpo (by decide), ?_⟩
      rw [dropWhile_append_stop hpo (by decide)]
      simp only [parseQF]
      rw [takeWhile_append_stop hq (by decide), dropWhile_append_stop hq (by decide)]

theorem parse_toStr {u : UrlObj} (hg : GoodUrl u) :
    parseList (UrlObj.toStr u) = some u := by
  obtain ⟨sch, host, path, query, frag⟩ := u
  obtain ⟨hs, hne, hok, hop, hph, hpo, hqo⟩ := hg
  simp only [UrlObj.isSpecial] at hne hok hop hph
  dsimp only at hs hpo hqo ⊢
  have htail := tail_roundtrip hpo frag hqo
  by_cases hsp : isSpecialScheme sch = true
  case pos =>
    obtain ⟨pt, hpath⟩ := hph hsp
    have hostne : host ≠ [] := hne hsp
    have hostok : host.any forbiddenHostChar = false := hok hsp
    cases host with
    | nil => exact absurd rfl hostne
    | cons h0 ht =>
      have h0f : forbiddenHostChar h0 = false := by
        by_cases hb : forbiddenHostChar h0 = true
        · exfalso
          rw [List.any_cons, hb] at hostok
          simp at hostok
        · rwa [Bool.not_eq_true] at hb
      have hostAuth : (h0 :: ht).all notAuthEnd = true :=
        all_of_any_false hostok (fun c hc => notAuthEnd_of_not_forbidden hc)
      have htos : UrlObj.toStr ⟨sch, h0 :: ht, path, query, frag⟩ =
          sch ++ ':' :: ('/' :: '/' :: ((h0 :: ht) ++ (path ++ qfStr query frag))) := by
        simp [UrlObj.toStr, UrlObj.isSpecial, hsp, List.cons_append,
              List.append_assoc]
      rw [htos]
      unfold parseList
      rw [splitFirst_append (scheme_no_colon hs)]
      simp only []
      rw [if_pos hs, if_pos hsp]
      have hrest1 : List.dropWhile (fun c => decide (c = '/'))
          ('/' :: '/' :: ((h0 :: ht) ++ (path ++ qfStr query frag))) =
          (h0 :: ht) ++ (path ++ qfStr query frag) := by
        simp only [List.dropWhile_cons, List.cons_append]
        simp [(not_forbidden_facts h0f).1]
      have hform : (h0 :: ht) ++ (path ++ qfStr query frag) =
          (h0 :: ht) ++ '/' :: (pt ++ qfStr query frag) := by
        rw [hpath]
        rfl
      have hauth_take : List.takeWhile notAuthEnd
          ((h0 :: ht) ++ (path ++ qfStr query frag)) = h0 :: ht := by
        rw [hform]
        exact takeWhile_append_stop hostAuth (by decide)
      have hauth_drop : List.dropWhile notAuthEnd
          ((h0 :: ht) ++ (path ++ qfStr query frag)) =
          path ++ qfStr query frag := by
        rw [hform, dropWhile_append_stop hostAuth (by decide), hpath]
        rfl
      simp only [parseSpecialRest, hrest1, hauth_take, hauth_drop]
      rw [htail.2]
      simp only [htail.1]
      have hpne : ¬(path = []) := by
        rw [hpath]
        simp
      simp only [hpne, if_false]
      have hguard : ¬((decide (h0 :: ht = []) || (h0 :: ht).any forbiddenHostChar) = true) := by
        simp [hostok]
      rw [if_neg hguard]
  case neg =>
    have hspf : isSpecialScheme sch = false := by
      rwa [Bool.not_eq_true] at hsp
    have hhost : host = [] := hop hspf
    have htos : UrlObj.toStr ⟨sch, host, path, query, frag⟩ =
        sch ++ ':' :: (path ++ qfStr query frag) := by
      simp [UrlObj.toStr, UrlObj.isSpecial, hspf, List.cons_append,
            List.append_assoc]
    rw [htos]
    unfold parseList
    rw [splitFirst_append (scheme_no_colon hs)]
    simp only []
    rw [if_pos hs, if_neg (by simp [hspf] : ¬(isSpecialScheme sch = true))]
    simp only [parseOpaqueRest]
    rw [htail.2]
    simp only [htail.1]
    simp [hhost]

theorem splitOnAmp_ne_nil : ∀ (l : List Char), splitOnAmp l ≠ [] := by
  intro l
  induction l with
  | nil => simp [splitOnAmp]
  | cons c t ih =>
    by_cases hc : c = '&'
    · simp [splitOnAmp, hc]
    · simp only [splitOnAmp, if_neg hc]
      rcases hs : splitOnAmp t with _ | ⟨s, ss⟩
      · exact absurd hs ih
      · simp

theorem splitOnAmp_no_amp {l : List Char}
    (h : l.all (fun c => !(c = '&')) = true) : splitOnAmp l = [l] := by
  induction l with
  | nil => rfl
  | cons c t ih =>
    simp only [List.all_cons, Bool.and_eq_true] at h
    have hc : ¬(c = '&') := by simpa using h.1
    simp [splitOnAmp, hc, ih h.2]

theorem splitOnAmp_append {xs : List Char} (ys : List Char)
    (h : xs.all (fun c => !(c = '&')) = true) :
    splitOnAmp (xs ++ '&' :: ys) = xs :: splitOnAmp ys := by
  induction xs with
  | nil => simp [splitOnAmp]
  | cons c t ih =>
    simp only [List.all_cons, Bool.and_eq_true] at h
    have hc : ¬(c = '&') := by simpa using h.1
    simp only [List.cons_append, splitOnAmp, if_neg hc, List.append_eq]
    rw [ih h.2]

theorem splitOnAmp_mem_all {p : Char → Bool} :
    ∀ {l : List Char}, l.all p = true →
      ∀ seg ∈ splitOnAmp l, seg.all p = true := by
  intro l
  induction l with
  | nil =>
    intro _ seg hseg
    simp [splitOnAmp] at hseg
    simp [hseg]
  | cons c t ih =>
    intro hall seg hseg
    simp only [List.all_cons, Bool.and_eq_true] at hall
    by_cases hc : c = '&'
    · simp only [splitOnAmp, if_pos hc] at hseg
      rcases List.mem_cons.mp hseg with h1 | h2
      · simp [h1]
      · exact ih hall.2 seg h2
    · simp only [splitOnAmp, if_neg hc] at hseg
      rcases hsp : splitOnAmp t with _ | ⟨s, ss⟩
      · exact absurd hsp (splitOnAmp_ne_nil t)
      · rw [hsp] at hseg
        rcases List.mem_cons.mp hseg with h1 | h2
        · subst h1
          rw [List.all_cons, Bool.and_eq_true]
          refine ⟨hall.1, ?_⟩
          exact ih hall.2 s (by rw [hsp]; exact List.mem_cons_self s ss)
        · exact ih hall.2 seg (by rw [hsp]; exact List.mem_cons_of_mem s h2)

theorem splitOnAmp_mem_no_amp :
    ∀ {l : List Char} seg, seg ∈ splitOnAmp l →
      seg.all (fun c => !(c = '&')) = true := by
  intro l
  induction l with
  | nil =>
    intro seg hseg
    simp [splitOnAmp] at hseg
    simp [hseg]
  | cons c t ih =>
    intro seg hseg
    by_cases hc : c = '&'
    · simp only [splitOnAmp, if_pos hc] at hseg
      rcases List.mem_cons.mp hseg with h1 | h2
      · simp [h1]
      · exact ih seg h2
    · simp only [splitOnAmp, if_neg hc] at hseg
      rcases hsp : splitOnAmp t with _ | ⟨s, ss⟩
      · exact absurd hsp (splitOnAmp_ne_nil t)
      · rw [hsp] at hseg
        rcases List.mem_cons.mp hseg with h1 | h2
        · subst h1
          rw [List.all_cons, Bool.and_eq_true]
          refine ⟨by simpa using hc, ?_⟩
          exact ih s (by rw [hsp]; exact List.mem_cons_self s ss)
        · exact ih seg (by rw [hsp]; exact List.mem_cons_of_mem s h2)

theorem splitFirst_parts {c : Char} :
    ∀ {l k v : List Char}, splitFirst c l = some (k, v) →
      l = k ++ c :: v ∧ k.all (fun x => !(x = c)) = true := by
  intro l
  induction l with
  | nil =>
    intro k v h
    simp [splitFirst] at h
  | cons a t ih =>
    intro k v h
    by_cases ha : a = c
    · simp only [splitFirst, if_pos ha] at h
      cases h
      subst ha
      exact ⟨rfl, rfl⟩
    · simp only [splitFirst, if_neg ha] at h
      rcases hs : splitFirst c t with _ | ⟨k', v'⟩
      · rw [hs] at h
        simp at h
      · rw [hs] at h
        simp only [Option.map_some'] at h
        cases h
        obtain ⟨he, hall⟩ := ih hs
        constructor
        · rw [List.cons_append, ← he]
        · rw [List.all_cons, Bool.and_eq_true]
          exact ⟨by simpa using ha, hall⟩

theorem splitFirst_none_all {c : Char} :
    ∀ {l : List Char}, splitFirst c l = none →
      l.all (fun x => !(x = c)) = true := by
  intro l
  induction l with
  | nil => intro _; rfl
  | cons a t ih =>
    intro h
    by_cases ha : a = c
    · simp [splitFirst, ha] at h
    · simp only [splitFirst, if_neg ha] at h
      rcases hs : splitFirst c t with _ | p
      · rw [List.all_cons, Bool.and_eq_true]
        exact ⟨by simpa using ha, ih hs⟩
      · rw [hs] at h
        exact absurd h (by simp)

/-- The invariant that makes a parameter list serialise/reparse stably:
keys contain neither separator, values contain no pair separator. -/
def PairsOk (ps : List (List Char × List Char)) : Prop :=
  ∀ kv ∈ ps, kv.1.all (fun c => !(c = '&') && !(c = '=')) = true ∧
             kv.2.all (fun c => !(c = '&')) = true

theorem all_and_of_all {p q : Char → Bool} {l : List Char}
    (hp : l.all p = true) (hq : l.all q = true) :
    l.all (fun c => p c && q c) = true := by
  rw [List.all_eq_true] at *
  intro c hc
  simp [hp c hc, hq c hc]

theorem all_append_split {p : Char → Bool} {xs ys : List Char}
    (h : (xs ++ ys).all p = true) : xs.all p = true ∧ ys.all p = true := by
  rw [List.all_append, Bool.and_eq_true] at h
  exact h

theorem parseParams_pairsOk (l : List Char) : PairsOk (parseParams l) := by
  intro kv hkv
  simp only [parseParams, List.mem_filterMap] at hkv
  obtain ⟨seg, hmem, hfn⟩ := hkv
  by_cases hnil : seg = []
  · simp [hnil] at hfn
  · rw [if_neg hnil] at hfn
    have hamp : seg.all (fun c => !(c = '&')) = true :=
      splitOnAmp_mem_no_amp seg hmem
    cases hfn
    simp only [splitEq]
    rcases hsp : splitFirst '=' seg with _ | ⟨k, v⟩
    · have hne := splitFirst_none_all hsp
      exact ⟨all_and_of_all hamp hne, rfl⟩
    · obtain ⟨he, hkall⟩ := splitFirst_parts hsp
      rw [he] at hamp
      obtain ⟨hk, hv⟩ := all_append_split hamp
      rw [List.all_cons, Bool.and_eq_true] at hv
      exact ⟨all_and_of_all hk hkall, hv.2⟩

theorem parseParams_mem_all {p : Char → Bool} {l : List Char}
    (hl : l.all p = true) :
    ∀ kv ∈ parseParams l, kv.1.all p = true ∧ kv.2.all p = true := by
  intro kv hkv
  simp only [parseParams, List.mem_filterMap] at hkv
  obtain ⟨seg, hmem, hfn⟩ := hkv
  by_cases hnil : seg = []
  · simp [hnil] at hfn
  · rw [if_neg hnil] at hfn
    have hsegp : seg.all p = true := splitOnAmp_mem_all hl seg hmem
    cases hfn
    simp only [splitEq]
    rcases hsp : splitFirst '=' seg with _ | ⟨k, v⟩
    · exact ⟨hsegp, rfl⟩
    · obtain ⟨he, _⟩ := splitFirst_parts hsp
      rw [he] at hsegp
      obtain ⟨hk, hv⟩ := all_append_split hsegp
      rw [List.all_cons, Bool.and_eq_true] at hv
      exact ⟨hk, hv.2⟩

theorem joinAmp_all {p : Char → Bool} (hamp : p '&' = true)
    (heq : p '=' = true) :
    ∀ {ps : List (List Char × List Char)},
      (∀ kv ∈ ps, kv.1.all p = true ∧ kv.2.all p = true) →
      (joinAmp ps).all p = true := by
  intro ps
  induction ps with
  | nil => intro _; rfl
  | cons kv rest ih =>
    intro hall
    have hkv := hall kv (List.mem_cons_self kv rest)
    cases rest with
    | nil =>
      simp only [joinAmp, List.all_append, List.all_cons, Bool.and_eq_true]
      exact ⟨hkv.1, heq, hkv.2⟩
    | cons kv2 rest2 =>
      have hrest := ih (fun kv' h' => hall kv' (List.mem_cons_of_mem kv h'))
      simp only [joinAmp, List.all_append, List.all_cons, Bool.and_eq_true,
                 and_assoc] at hrest ⊢
      exact ⟨hkv.1, heq, hkv.2, hamp, hrest⟩

theorem parseParams_joinAmp :
    ∀ {ps : List (List Char × List Char)}, PairsOk ps →
      parseParams (joinAmp ps) = ps := by
  intro ps
  induction ps with
  | nil => intro _; rfl
  | cons kv rest ih =>
    intro hok
    obtain ⟨hk, hv⟩ := hok kv (List.mem_cons_self kv rest)
    have hkamp : kv.1.all (fun c => !(c = '&')) = true := by
      rw [List.all_eq_true] at hk ⊢
      intro c hc
      have := hk c hc
      rw [Bool.and_eq_true] at this
      exact this.1
    have hkeq : kv.1.all (fun c => !(c = '=')) = true := by
      rw [List.all_eq_true] at hk ⊢
      intro c hc
      have := hk c hc
      rw [Bool.and_eq_true] at this
      exact this.2
    have hsegamp : (kv.1 ++ '=' :: kv.2).all (fun c => !(c = '&')) = true := by
      rw [List.all_append, Bool.and_eq_true]
      refine ⟨hkamp, ?_⟩
      rw [List.all_cons, Bool.and_eq_true]
      exact ⟨by decide, hv⟩
    have hsegne : kv.1 ++ '=' :: kv.2 ≠ [] := by
      intro hc
      cases kv.1 with
      | nil => simp at hc
      | cons a b => simp at hc
    have hsplit : splitFirst '=' (kv.1 ++ '=' :: kv.2) = some (kv.1, kv.2) :=
      splitFirst_append hkeq
    have hse : splitEq (kv.1 ++ '=' :: kv.2) = (kv.1, kv.2) := by
      simp [splitEq, hsplit]
    cases rest with
    | nil =>
      simp only [joinAmp, parseParams]
      rw [splitOnAmp_no_amp hsegamp]
      simp only [List.filterMap_cons, List.filterMap_nil, if_neg hsegne]
      rw [hse]
    | cons kv2 rest2 =>
      have hrest := ih (fun kv' h' => hok kv' (List.mem_cons_of_mem kv h'))
      have hj2 : joinAmp (kv :: kv2 :: rest2) =
          (kv.1 ++ '=' :: kv.2) ++ '&' :: joinAmp (kv2 :: rest2) := by
        show kv.1 ++ '=' :: kv.2 ++ '&' :: joinAmp (kv2 :: rest2) =
          (kv.1 ++ '=' :: kv.2) ++ '&' :: joinAmp (kv2 :: rest2)
        rw [List.append_assoc]
      rw [hj2]
      simp only [parseParams]
      rw [splitOnAmp_append (joinAmp (kv2 :: rest2)) hsegamp]
      simp only [List.filterMap_cons, if_neg hsegne]
      rw [hse]
      simp only [parseParams] at hrest
      rw [hrest]

theorem filter_idem {α : Type} (p : α → Bool) (l : List α) :
    (l.filter p).filter p = l.filter p := by
  induction l with
  | nil => rfl
  | cons a t ih =>
    by_cases ha : p a = true
    · simp [List.filter_cons, ha, ih]
    · simp only [List.filter_cons]
      rw [if_neg ha, ih]

theorem good_deleteTracking {u : UrlObj} (hg : GoodUrl u) :
    GoodUrl (deleteTracking u) := by
  obtain ⟨hs, hne, hok, hop, hph, hpo, hqo⟩ := hg
  refine ⟨hs, hne, hok, hop, hph, hpo, ?_⟩
  intro q hq
  simp only [deleteTracking] at hq
  split at hq
  · cases hq
  case isFalse hps =>
    cases hq
    rcases hq0 : u.query with _ | q0
    · exfalso
      apply hps
      rw [hq0]
      rfl
    · have hq0all := hqo q0 hq0
      apply joinAmp_all (by decide) (by decide)
      intro kv hkv
      have hmem := List.mem_of_mem_filter hkv
      simp only [Option.getD_some] at hmem
      exact parseParams_mem_all hq0all kv hmem

theorem deleteTracking_idem (u : UrlObj) :
    deleteTracking (deleteTracking u) = deleteTracking u := by
  have hok : PairsOk ((parseParams (u.query.getD [])).filter
      (fun kv => !(trackingKeys.contains kv.1))) :=
    fun kv hkv => parseParams_pairsOk _ kv (List.mem_of_mem_filter hkv)
  by_cases hps : (parseParams (u.query.getD [])).filter
      (fun kv => !(trackingKeys.contains kv.1)) = []
  · show deleteTracking { u with query := _ } = _
    simp only [deleteTracking, hps, if_pos]
    rfl
  · simp only [deleteTracking, if_neg hps]
    have hpp : parseParams ((some (joinAmp ((parseParams (u.query.getD [])).filter
        (fun kv => !(trackingKeys.contains kv.1))))).getD []) =
        (parseParams (u.query.getD [])).filter
          (fun kv => !(trackingKeys.contains kv.1)) := by
      simp only [Option.getD_some]
      exact parseParams_joinAmp hok
    simp only [hpp, filter_idem, if_neg hps]

theorem startsWithL_append (p r : List Char) : startsWithL p (p ++ r) = true := by
  induction p with
  | nil => rfl
  | cons a t ih => simp [startsWithL, ih]

theorem startsWithL_decomp : ∀ {p l : List Char}, startsWithL p l = true →
    ∃ r, l = p ++ r := by
  intro p
  induction p with
  | nil =>
    intro l _
    exact ⟨l, rfl⟩
  | cons a t ih =>
    intro l h
    cases l with
    | nil => simp [startsWithL] at h
    | cons c cs =>
      simp only [startsWithL, Bool.and_eq_true] at h
      obtain ⟨r, hr⟩ := ih h.2
      have hac : a = c := of_decide_eq_true h.1
      exact ⟨r, by rw [hr, hac]; rfl⟩

theorem withScheme_prefixed (u : String) :
    jsStartsWith (withScheme u) ("http://") = true ∨
    jsStartsWith (withScheme u) ("https://") = true := by
  by_cases h1 : jsStartsWith u ("http://") = true
  · left
    have hc : (!(jsStartsWith u ("http://")) && !(jsStartsWith u ("https://"))) = false := by
      rw [h1]
      rfl
    unfold withScheme
    rw [hc, if_neg Bool.false_ne_true]
    exact h1
  · by_cases h2 : jsStartsWith u ("https://") = true
    · right
      have hc : (!(jsStartsWith u ("http://")) && !(jsStartsWith u ("https://"))) = false := by
        rw [h2]
        simp
      unfold withScheme
      rw [hc, if_neg Bool.false_ne_true]
      exact h2
    · right
      rw [Bool.not_eq_true] at h1 h2
      have hc : (!(jsStartsWith u ("http://")) && !(jsStartsWith u ("https://"))) = true := by
        rw [h1, h2]
        rfl
      unfold withScheme
      rw [hc, if_pos rfl]
      show startsWithL (("https://").toList) (("https://" ++ u)).toList = true
      rw [show (("https://" ++ u)).toList = ("https://").toList ++ u.toList from rfl]
      exact startsWithL_append _ _

theorem withScheme_of_prefixed {s : String}
    (h : jsStartsWith s ("http://") = true ∨ jsStartsWith s ("https://") = true) :
    withScheme s = s := by
  unfold withScheme
  rcases h with h | h <;> simp [h]

theorem scheme_of_parseSpecial {sch rest : List Char} {ob : UrlObj}
    (h : parseSpecialRest sch rest = some ob) : ob.scheme = sch := by
  simp only [parseSpecialRest] at h
  split at h
  · cases h
  · set rest1 := rest.dropWhile (fun c => c = '/') with hr1
    set after := rest1.dropWhile notAuthEnd with hafter
    set qf := after.dropWhile notQF with hqf
    rcases hq : parseQF qf with ⟨q, f⟩
    rw [hq] at h
    simp only [] at h
    cases h
    rfl

theorem scheme_of_parse {cs : List Char} {ob : UrlObj} {sch rest : List Char}
    (hsf : splitFirst ':' cs = some (sch, rest))
    (hp : parseList cs = some ob) : ob.scheme = sch := by
  unfold parseList at hp
  rw [hsf] at hp
  dsimp only at hp
  by_cases hs : schemeOkB sch = true
  · rw [if_pos hs] at hp
    by_cases hss : isSpecialScheme sch = true
    · rw [if_pos hss] at hp
      exact scheme_of_parseSpecial hp
    · rw [if_neg hss] at hp
      cases hp
      rfl
  · rw [if_neg hs] at hp
    cases hp

theorem splitFirst_http (r : List Char) :
    splitFirst ':' (('h' : Char) :: 't' :: 't' :: 'p' :: ':' :: r) =
      some (['h', 't', 't', 'p'], r) := rfl

theorem splitFirst_https (r : List Char) :
    splitFirst ':' (('h' : Char) :: 't' :: 't' :: 'p' :: 's' :: ':' :: r) =
      some (['h', 't', 't', 'p', 's'], r) := rfl

theorem parse_scheme_http {s : String} {ob : UrlObj}
    (hpre : jsStartsWith s ("http://") = true ∨
            jsStartsWith s ("https://") = true)
    (hp : parseList s.toList = some ob) :
    ob.scheme = ("http").toList ∨ ob.scheme = ("https").toList := by
  rcases hpre with h | h
  · left
    obtain ⟨r, hr⟩ := startsWithL_decomp h
    rw [hr] at hp
    rw [show ("http://").toList ++ r =
        ('h' : Char) :: 't' :: 't' :: 'p' :: ':' :: ('/' :: '/' :: r) from rfl] at hp
    exact scheme_of_parse (splitFirst_http _) hp
  · right
    obtain ⟨r, hr⟩ := startsWithL_decomp h
    rw [hr] at hp
    rw [show ("https://").toList ++ r =
        ('h' : Char) :: 't' :: 't' :: 'p' :: 's' :: ':' :: ('/' :: '/' :: r) from rfl] at hp
    exact scheme_of_parse (splitFirst_https _) hp

theorem toStr_prefixed {ob : UrlObj}
    (h : ob.scheme = ("http").toList ∨ ob.scheme = ("https").toList) :
    jsStartsWith (String.mk (UrlObj.toStr ob)) ("http://") = true ∨
    jsStartsWith (String.mk (UrlObj.toStr ob)) ("https://") = true := by
  rcases h with h | h
  · left
    show startsWithL (("http://").toList) (UrlObj.toStr ob) = true
    have hsp : ob.isSpecial = true := by
      simp only [UrlObj.isSpecial, h]
      decide
    rw [UrlObj.toStr, hsp, h]
    simp [startsWithL]
  · right
    show startsWithL (("https://").toList) (UrlObj.toStr ob) = true
    have hsp : ob.isSpecial = true := by
      simp only [UrlObj.isSpecial, h]
      decide
    rw [UrlObj.toStr, hsp, h]
    simp [startsWithL]

theorem normalizeUrl_parse_success {u : String} {ob : UrlObj}
    (h : parseList (withScheme u).toList = some ob) :
    URLParser.normalizeUrl u = String.mk (UrlObj.toStr (deleteTracking ob)) := by
  unfold URLParser.normalizeUrl
  simp only [String.toList] at h
  simp [h]

/-- Claim C8 helper: `normalizeUrl` is idempotent on every input string
(on the parse-failure path because the catch value is already scheme
prefixed; on the success path by the serialise/reparse round trip and
the stability of the tracking-parameter deletion). -/
theorem normalizeUrl_idem (u : String) :
    URLParser.normalizeUrl (URLParser.normalizeUrl u) = URLParser.normalizeUrl u := by
  have hpre := withScheme_prefixed u
  rcases hp : parseList (withScheme u).toList with _ | ob
  · rw [normalizeUrl_parse_failure u hp]
    have hp2 : parseList (withScheme (withScheme u)).toList = none := by
      rw [withScheme_of_prefixed hpre]
      exact hp
    rw [normalizeUrl_parse_failure (withScheme u) hp2]
    exact withScheme_of_prefixed hpre
  · rw [normalizeUrl_parse_success hp]
    have hgood := good_of_parse hp
    have hgd := good_deleteTracking hgood
    have hsch : ob.scheme = ("http").toList ∨ ob.scheme = ("https").toList :=
      parse_scheme_http hpre hp
    have hsch2 : (deleteTracking ob).scheme = ("http").toList ∨
        (deleteTracking ob).scheme = ("https").toList := hsch
    have hpre2 := toStr_prefixed hsch2
    have h2 : parseList (withScheme (String.mk (UrlObj.toStr (deleteTracking ob)))).toList =
        some (deleteTracking ob) := by
      rw [withScheme_of_prefixed hpre2]
      exact parse_toStr hgd
    rw [normalizeUrl_parse_success h2, deleteTracking_idem]

/-!
Lemmas about the regex engine: a successful match always reaches the
continuation, a counted class consumes exactly its count, and hence a
pattern ending in its capturing group of a counted class always produces
a capture of that exact length.
-/

theorem starM_some {p : Char → Bool}
    {k : List Char → Option (List Char) → Option (Option (List Char))}
    {res : Option (List Char)} :
    ∀ {s : List Char} {cap : Option (List Char)},
      starM p k s cap = some res →
      ∃ s' cap', k s' cap' = some res := by
  intro s
  induction s with
  | nil =>
    intro cap h
    exact ⟨[], cap, h⟩
  | cons c t ih =>
    intro cap h
    simp only [starM] at h
    by_cases hc : p c = true
    · rw [if_pos hc] at h
      rcases ho : starM p k t cap with _ | v
      · rw [ho] at h
        simp only [Option.orElse] at h
        exact ⟨c :: t, cap, h⟩
      · rw [ho] at h
        simp only [Option.orElse] at h
        exact ih (ho.trans h)
    · rw [if_neg hc] at h
      exact ⟨c :: t, cap, h⟩

theorem repM_split {p : Char → Bool} :
    ∀ {n : Nat} {s : List Char} {cap : Option (List Char)}
      {k : List Char → Option (List Char) → Option (Option (List Char))}
      {res : Option (List Char)},
      repM p n s cap k = some res →
      ∃ pre s', s = pre ++ s' ∧ pre.length = n ∧ k s' cap = some res := by
  intro n
  induction n with
  | zero =>
    intro s cap k res h
    exact ⟨[], s, rfl, rfl, h⟩
  | succ m ih =>
    intro s cap k res h
    cases s with
    | nil => simp [repM] at h
    | cons c t =>
      simp only [repM] at h
      by_cases hc : p c = true
      · rw [if_pos hc] at h
        obtain ⟨pre, s', he, hl, hk⟩ := ih h
        exact ⟨c :: pre, s', by rw [he]; rfl, by simp [hl], hk⟩
      · rw [if_neg hc] at h
        cases h

theorem matchM_some :
    ∀ (re : Re) {s : List Char} {cap : Option (List Char)}
      {k : List Char → Option (List Char) → Option (Option (List Char))}
      {res : Option (List Char)},
      matchM re s cap k = some res →
      ∃ s' cap', k s' cap' = some res := by
  intro re
  induction re with
  | eps =>
    intro s cap k res h
    exact ⟨s, cap, h⟩
  | str l =>
    intro s cap k res h
    simp only [matchM] at h
    rcases hs : stripCI l s with _ | s'
    · rw [hs] at h
      cases h
    · rw [hs] at h
      exact ⟨s', cap, h⟩
  | cls p =>
    intro s cap k res h
    cases s with
    | nil => simp [matchM] at h
    | cons c t =>
      simp only [matchM] at h
      by_cases hc : p c = true
      · rw [if_pos hc] at h
        exact ⟨t, cap, h⟩
      · rw [if_neg hc] at h
        cases h
  | starCls p =>
    intro s cap k res h
    exact starM_some h
  | repCls p n =>
    intro s cap k res h
    obtain ⟨pre, s', _, _, hk⟩ := repM_split h
    exact ⟨s', cap, hk⟩
  | seq a b iha ihb =>
    intro s cap k res h
    simp only [matchM] at h
    obtain ⟨s1, c1, h1⟩ := iha h
    exact ihb h1
  | alt a b iha ihb =>
    intro s cap k res h
    simp only [matchM] at h
    rcases ha : matchM a s cap k with _ | v
    · rw [ha] at h
      simp only [Option.orElse] at h
      exact ihb h
    · rw [ha] at h
      simp only [Option.orElse] at h
      exact iha (ha.trans h)
  | grp r ihr =>
    intro s cap k res h
    simp only [matchM] at h
    obtain ⟨s', c', h'⟩ := ihr h
    exact ⟨s', some (s.take (s.length - s'.length)), h'⟩

theorem take_append_self (pre s' : List Char) :
    (pre ++ s').take pre.length = pre := by
  induction pre with
  | nil => rfl
  | cons c t ih => simp [List.take_cons, ih]

theorem seqGrpRep_capture {X : Re} {p : Char → Bool} {n : Nat}
    {s : List Char} {res : Option (List Char)}
    (h : matchM (Re.seq X (Re.grp (Re.repCls p n))) s none
        (fun _ cap => some cap) = some res) :
    ∃ l, res = some l ∧ l.length = n := by
  simp only [matchM] at h
  obtain ⟨s1, c1, h1⟩ := matchM_some X h
  have h2 : repM p n s1 c1
      (fun s2 _ => some (some (s1.take (s1.length - s2.length)))) = some res := h1
  obtain ⟨pre, s2, he, hl, hk⟩ := repM_split h2
  have hres : res = some (s1.take (s1.length - s2.length)) :=
    (Option.some.inj hk).symm
  refine ⟨s1.take (s1.length - s2.length), hres, ?_⟩
  have hlen : s1.length - s2.length = n := by
    rw [he, List.length_append, hl]
    omega
  rw [hlen, he, ← hl, take_append_self, hl]

theorem execFrom_capture {X : Re} {p : Char → Bool} {n : Nat} :
    ∀ {s : List Char} {res : Option (List Char)},
      execFrom (Re.seq X (Re.grp (Re.repCls p n))) s = some res →
      ∃ l, res = some l ∧ l.length = n := by
  intro s
  induction s with
  | nil =>
    intro res h
    simp only [execFrom] at h
    exact seqGrpRep_capture h
  | cons c t ih =>
    intro res h
    simp only [execFrom] at h
    rcases hm : matchM (Re.seq X (Re.grp (Re.repCls p n))) (c :: t) none
        (fun _ cap => some cap) with _ | v
    · rw [hm] at h
      exact ih h
    · rw [hm] at h
      cases h
      exact seqGrpRep_capture hm

theorem yt_exec_len {r : JsRegex} (hr : r = ytPattern1 ∨ r = ytPattern2)
    {u : String} (h : r.test u = true) :
    ∃ id : String, r.exec u = some (some id) ∧ id.length = 11 := by
  unfold JsRegex.test at h
  rcases he : r.exec u with _ | res
  · rw [he] at h
    cases h
  · rcases hr with hr | hr
    · subst hr
      have hex : (execFrom (Re.seq yt1pre (Re.grp (Re.repCls ytIdCls 11)))
          u.toList).map (fun c => c.map String.mk) = some res := he
      rcases hef : execFrom (Re.seq yt1pre (Re.grp (Re.repCls ytIdCls 11)))
          u.toList with _ | res0
      · rw [hef] at hex
        cases hex
      · rw [hef] at hex
        obtain ⟨l, hl, hlen⟩ := execFrom_capture hef
        subst hl
        simp only [Option.map_some'] at hex
        have hres : res = some (String.mk l) := (Option.some.inj hex).symm
        exact ⟨String.mk l, by rw [hres], hlen⟩
    · subst hr
      have hex : (execFrom (Re.seq (Re.seq protoRe (Re.seq wwwRe
          (rstr ("youtube.com/shorts/"))))
          (Re.grp (Re.repCls ytIdCls 11))) u.toList).map
          (fun c => c.map String.mk) = some res := he
      rcases hef : execFrom (Re.seq (Re.seq protoRe (Re.seq wwwRe
          (rstr ("youtube.com/shorts/"))))
          (Re.grp (Re.repCls ytIdCls 11))) u.toList with _ | res0
      · rw [hef] at hex
        cases hex
      · rw [hef] at hex
        obtain ⟨l, hl, hlen⟩ := execFrom_capture hef
        subst hl
        simp only [Option.map_some'] at hex
        have hres : res = some (String.mk l) := (Option.some.inj hex).symm
        exact ⟨String.mk l, by rw [hres], hlen⟩

theorem detectPlatform_eq (u : String) :
    URLParser.detectPlatform u =
      (if (ytPattern1.test u || ytPattern2.test u) = true then Platform.youtube
       else if igPattern.test u = true then Platform.instagram
       else if (ttPattern1.test u || ttPattern2.test u) = true then Platform.tiktok
       else if (liPattern1.test u || liPattern2.test u) = true then Platform.linkedin
       else if twPattern.test u = true then Platform.twitter
       else Platform.generic) := by
  simp only [URLParser.detectPlatform, URLParser.PLATFORM_PATTERNS,
             detectPlatformAux, List.any_cons, List.any_nil, Bool.or_false]
  simp

theorem match_of_detect_youtube {u : String}
    (h : URLParser.detectPlatform u = Platform.youtube) :
    (ytPattern1.test u || ytPattern2.test u) = true := by
  rw [detectPlatform_eq] at h
  by_cases hc : (ytPattern1.test u || ytPattern2.test u) = true
  · exact hc
  · exfalso
    rw [if_neg hc] at h
    split at h
    · cases h
    · split at h
      · cases h
      · split at h
        · cases h
        · split at h
          · cases h
          · cases h

theorem matchIdAux_cons_some {r : JsRegex} {rest : List JsRegex} {u : String}
    {cap : String} (h : r.exec u = some (some cap)) (hne : cap.length ≠ 0) :
    matchIdAux (r :: rest) u = some cap := by
  unfold matchIdAux
  rw [h]
  simp [hne]

theorem matchIdAux_cons_fall {r : JsRegex} {rest : List JsRegex} {u : String}
    (h : r.exec u = none) :
    matchIdAux (r :: rest) u = matchIdAux rest u := by
  show (match r.exec u with
        | some (some cap) => if cap.length ≠ 0 then some cap else matchIdAux rest u
        | _ => matchIdAux rest u) = matchIdAux rest u
  rw [h]

theorem yt_id_of_detect {u : String}
    (h : URLParser.detectPlatform u = Platform.youtube) :
    ∃ id, URLParser.extractYouTubeVideoId u = some id ∧ id.length = 11 := by
  by_cases h1 : ytPattern1.test u = true
  · obtain ⟨id, hex, hlen⟩ := yt_exec_len (Or.inl rfl) h1
    refine ⟨id, ?_, hlen⟩
    unfold URLParser.extractYouTubeVideoId
    rw [matchIdAux_cons_some hex (by rw [hlen]; decide)]
  · have he1 : ytPattern1.exec u = none := by
      unfold JsRegex.test at h1
      rcases he : ytPattern1.exec u with _ | c
      · rfl
      · rw [he] at h1
        simp at h1
    have h2 : ytPattern2.test u = true := by
      have hm := match_of_detect_youtube h
      rw [Bool.or_eq_true] at hm
      rcases hm with ha | hb
      · exact absurd ha h1
      · exact hb
    obtain ⟨id, hex, hlen⟩ := yt_exec_len (Or.inr rfl) h2
    refine ⟨id, ?_, hlen⟩
    unfold URLParser.extractYouTubeVideoId
    rw [matchIdAux_cons_fall he1, matchIdAux_cons_some hex (by rw [hlen]; decide)]

/-!
Extractor-level lemmas: the YouTube parser cannot throw on a URL its
`canHandle` accepts, the generic pipeline always sets the required
fields, and the possible fetch traces of each extractor.
-/

theorem yt_extract_of_canHandle (w : World) {u : String}
    (h : youtubeParser.canHandle u = true) :
    exceptOk (YouTubeParser.extractMetadata w u).1 = true ∧
    (YouTubeParser.extractMetadata w u).2 =
      [FetchEvent.oembed (YouTubeParser.oembedRequestUrl u)] := by
  have hd : URLParser.detectPlatform u = Platform.youtube := of_decide_eq_true h
  obtain ⟨vid, hid, _⟩ := yt_id_of_detect hd
  unfold YouTubeParser.extractMetadata
  rw [hid]
  unfold YouTubeParser.fetchOEmbedData
  rcases hfo : w.fetchJson (YouTubeParser.oembedRequestUrl u) with e | d <;>
    simp [hfo, exceptOk]

theorem yt_ok_fields {w : World} {u : String} {m : EmbedMetadata}
    (h : (YouTubeParser.extractMetadata w u).1 = Except.ok m) :
    m.type.isSome = true ∧ m.platform.isSome = true ∧ m.url.isSome = true := by
  unfold YouTubeParser.extractMetadata at h
  rcases hid : URLParser.extractYouTubeVideoId u with _ | vid
  · rw [hid] at h
    cases h
  · rw [hid] at h
    unfold YouTubeParser.fetchOEmbedData at h
    rcases hfo : w.fetchJson (YouTubeParser.oembedRequestUrl u) with e | d
    · simp only [hfo] at h
      cases h
      exact ⟨rfl, rfl, rfl⟩
    · simp only [hfo] at h
      cases h
      exact ⟨rfl, rfl, rfl⟩

theorem ogBuild_type (doc : HtmlDoc) (url : String) :
    ((ogBuildRecord doc url).type).isSome = true := by
  unfold ogBuildRecord
  repeat' split
  all_goals rfl

theorem ogBuild_platform (doc : HtmlDoc) (url : String) :
    (ogBuildRecord doc url).platform = some Platform.generic := by
  unfold ogBuildRecord
  repeat' split
  all_goals rfl

theorem ogBuild_url (doc : HtmlDoc) (url : String) :
    (ogBuildRecord doc url).url = some url := by
  unfold ogBuildRecord
  repeat' split
  all_goals rfl

theorem ogAbs_fields {m7 m : EmbedMetadata} {url : String}
    (h : ogAbsolutiseImage m7 url = Except.ok m) :
    m.type = m7.type ∧ m.platform = m7.platform ∧ m.url = m7.url ∧
    m.title = m7.title := by
  unfold ogAbsolutiseImage at h
  repeat' split at h
  all_goals cases h
  all_goals exact ⟨rfl, rfl, rfl, rfl⟩

theorem ogCore_fields {w : World} {u : String} {m : EmbedMetadata}
    (h : MetadataExtractor.extractOpenGraphCore w u = Except.ok m) :
    m.type.isSome = true ∧ m.platform = some Platform.generic ∧
    m.url = some u := by
  unfold MetadataExtractor.extractOpenGraphCore at h
  rcases hf : w.fetchHtml u with e | doc
  · rw [hf] at h
    cases h
  · rw [hf] at h
    have h2 : ogAbsolutiseImage (ogBuildRecord doc u) u = Except.ok m := h
    obtain ⟨ht, hp, hu, _⟩ := ogAbs_fields h2
    rw [ht, hp, hu]
    exact ⟨ogBuild_type doc u, ogBuild_platform doc u, ogBuild_url doc u⟩

theorem ogFallback_fields (u : String) :
    (ogFallback u).type = some ContentType.link ∧
    (ogFallback u).platform = some Platform.generic ∧
    (ogFallback u).url = some u ∧
    (ogFallback u).title = some (MetadataExtractor.getDomainFromUrl u) :=
  ⟨rfl, rfl, rfl, rfl⟩

theorem og_trace (w : World) (u : String) :
    (MetadataExtractor.extractOpenGraph w u).2 = [FetchEvent.page u] := rfl

theorem og_fields (w : World) (u : String) :
    ((MetadataExtractor.extractOpenGraph w u).1.type).isSome = true ∧
    (MetadataExtractor.extractOpenGraph w u).1.platform = some Platform.generic ∧
    (MetadataExtractor.extractOpenGraph w u).1.url = some u := by
  unfold MetadataExtractor.extractOpenGraph
  rcases hc : MetadataExtractor.extractOpenGraphCore w u with e | m
  · exact ⟨rfl, rfl, rfl⟩
  · exact ogCore_fields hc

theorem basic_fields (w : World) (u : String) :
    ((MetadataExtractor.extractBasicMetadata w u).1.type).isSome = true ∧
    (MetadataExtractor.extractBasicMetadata w u).1.platform = some Platform.generic ∧
    (MetadataExtractor.extractBasicMetadata w u).1.url = some u := by
  unfold MetadataExtractor.extractBasicMetadata
  rcases hogp : MetadataExtractor.extractOpenGraph w u with ⟨og, t1⟩
  rcases htwp : MetadataExtractor.extractTwitterCards w u with ⟨tw, t2⟩
  dsimp only
  split
  · exact ⟨rfl, rfl, rfl⟩
  · have hfld := og_fields w u
    rw [hogp] at hfld
    exact hfld

theorem generic_fields (w : World) (u : String) :
    ((GenericParser.extractMetadata w u).1.type).isSome = true ∧
    (GenericParser.extractMetadata w u).1.platform = some Platform.generic ∧
    (GenericParser.extractMetadata w u).1.url = some u := by
  unfold GenericParser.extractMetadata
  rcases hb : MetadataExtractor.extractBasicMetadata w u with ⟨m, tr⟩
  have hfld := basic_fields w u
  rw [hb] at hfld
  exact ⟨hfld.1, rfl, hfld.2.2⟩

theorem basic_trace (w : World) (u : String) :
    (MetadataExtractor.extractBasicMetadata w u).2 = [FetchEvent.page u] ∨
    (MetadataExtractor.extractBasicMetadata w u).2 =
      [FetchEvent.page u, FetchEvent.page u] := by
  unfold MetadataExtractor.extractBasicMetadata
  rcases hogp : MetadataExtractor.extractOpenGraph w u with ⟨og, t1⟩
  have ht1 : t1 = [FetchEvent.page u] := by
    rw [← og_trace w u, hogp]
  rcases htwp : MetadataExtractor.extractTwitterCards w u with ⟨tw, t2⟩
  have ht2 : t2 = [FetchEvent.page u] := by
    have hq : (MetadataExtractor.extractTwitterCards w u).2 = [FetchEvent.page u] := rfl
    rw [htwp] at hq
    exact hq
  dsimp only
  split
  · right
    simp [ht1, ht2]
  · left
    exact ht1

theorem generic_trace (w : World) (u : String) :
    (GenericParser.extractMetadata w u).2 = [FetchEvent.page u] ∨
    (GenericParser.extractMetadata w u).2 =
      [FetchEvent.page u, FetchEvent.page u] := by
  unfold GenericParser.extractMetadata
  rcases hb : MetadataExtractor.extractBasicMetadata w u with ⟨m, tr⟩
  have := basic_trace w u
  rw [hb] at this
  exact this

theorem findParser_default (n : String) :
    EmbedService.findParser embedService n =
      (if youtubeParser.canHandle n = true then some youtubeParser
       else some genericParser) := by
  unfold EmbedService.findParser embedService
  by_cases hc : youtubeParser.canHandle n = true
  · simp [List.find?_cons, hc]
  · rw [Bool.not_eq_true] at hc
    simp [List.find?_cons, hc]
    rfl

/-!
Orchestrator lemmas: possible fetch traces and required-field
preservation of the default service instance.
-/

/-- Every trace the default service can produce for input `u` is one of the
four admissible shapes over the normalised URL. -/
theorem svc_trace (w : World) (u : String) :
    admissibleTrace (URLParser.normalizeUrl u)
      (EmbedService.extractMetadata embedService w u).2 := by
  unfold EmbedService.extractMetadata
  by_cases hv : URLParser.isValidUrl u = true
  · rw [hv]
    simp only [Bool.not_true]
    rw [if_neg Bool.false_ne_true]
    rw [findParser_default (URLParser.normalizeUrl u)]
    by_cases hyt : youtubeParser.canHandle (URLParser.normalizeUrl u) = true
    · rw [if_pos hyt]
      dsimp only
      obtain ⟨hok, htr⟩ := yt_extract_of_canHandle w hyt
      rcases hye : YouTubeParser.extractMetadata w (URLParser.normalizeUrl u)
        with ⟨r, tr⟩
      rw [hye] at htr
      dsimp only at htr
      have hytp : youtubeParser.extractMetadata w (URLParser.normalizeUrl u) =
          (r, tr) := hye
      rw [hytp]
      rcases r with e | m0
      · rw [hye] at hok
        cases hok
      · dsimp only
        right
        left
        exact htr
    · rw [if_neg hyt]
      dsimp only
      rcases hg : GenericParser.extractMetadata w (URLParser.normalizeUrl u)
        with ⟨m0, tr⟩
      have hgp : genericParser.extractMetadata w (URLParser.normalizeUrl u) =
          (Except.ok m0, tr) := by
        show (let p := GenericParser.extractMetadata w (URLParser.normalizeUrl u)
              (Except.ok p.1, p.2)) = (Except.ok m0, tr)
        rw [hg]
      rw [hgp]
      dsimp only
      have := generic_trace w (URLParser.normalizeUrl u)
      rw [hg] at this
      rcases this with h1 | h2
      · right
        right
        left
        exact h1
      · right
        right
        right
        exact h2
  · rw [Bool.not_eq_true] at hv
    rw [hv]
    simp only [Bool.not_false]
    rw [if_pos trivial]
    left
    rfl

/-- Whenever the default service succeeds, the returned metadata has its
`type`, `platform` and `url` fields populated. -/
theorem svc_ok_fields {w : World} {u : String} {m : EmbedMetadata}
    (h : (EmbedService.extractMetadata embedService w u).1 = Except.ok m) :
    m.type.isSome = true ∧ m.platform.isSome = true ∧ m.url.isSome = true := by
  unfold EmbedService.extractMetadata at h
  by_cases hv : URLParser.isValidUrl u = true
  · rw [hv] at h
    simp only [Bool.not_true] at h
    rw [if_neg Bool.false_ne_true] at h
    rw [findParser_default (URLParser.normalizeUrl u)] at h
    by_cases hyt : youtubeParser.canHandle (URLParser.normalizeUrl u) = true
    · rw [if_pos hyt] at h
      dsimp only at h
      rcases hye : YouTubeParser.extractMetadata w (URLParser.normalizeUrl u)
        with ⟨r, tr⟩
      have hytp : youtubeParser.extractMetadata w (URLParser.normalizeUrl u) =
          (r, tr) := hye
      rw [hytp] at h
      rcases r with e | m0
      · dsimp only at h
        rw [if_neg (by decide : ¬(youtubeParser.isGeneric = true))] at h
        have h2 : Except.ok
            (GenericParser.extractMetadata w (URLParser.normalizeUrl u)).1 =
            Except.ok m := h
        have h3 : (GenericParser.extractMetadata w
            (URLParser.normalizeUrl u)).1 = m := Except.ok.inj h2
        have hfld := generic_fields w (URLParser.normalizeUrl u)
        rw [h3] at hfld
        exact ⟨hfld.1, by rw [hfld.2.1]; rfl, by rw [hfld.2.2]; rfl⟩
      · dsimp only at h
        cases h
        have hfld : (YouTubeParser.extractMetadata w
            (URLParser.normalizeUrl u)).1 = Except.ok m0 := by
          rw [hye]
        obtain ⟨ht, hp, _⟩ := yt_ok_fields hfld
        exact ⟨ht, hp, rfl⟩
    · rw [if_neg hyt] at h
      dsimp only at h
      have h2 : Except.ok
          ({ (GenericParser.extractMetadata w (URLParser.normalizeUrl u)).1
              with url := some (URLParser.normalizeUrl u) } : EmbedMetadata) =
          Except.ok m := h
      have h3 : ({ (GenericParser.extractMetadata w
          (URLParser.normalizeUrl u)).1 with
          url := some (URLParser.normalizeUrl u) } : EmbedMetadata) = m :=
        Except.ok.inj h2
      have hfld := generic_fields w (URLParser.normalizeUrl u)
      refine h3 ▸ ⟨?_, ?_, rfl⟩
      · exact hfld.1
      · show ((GenericParser.extractMetadata w
            (URLParser.normalizeUrl u)).1.platform).isSome = true
        rw [hfld.2.1]
        rfl
  · rw [Bool.not_eq_true] at hv
    rw [hv] at h
    simp only [Bool.not_false] at h
    rw [if_pos trivial] at h
    cases h
/-!
Helper lemmas for the claim theorems: traces of `getOEmbed` and
`renderEmbed`, absoluteness of `resolveUrl` results, the degraded record
on fetch failure, and the `og:type` propagation through `ogBuildRecord`.
-/

theorem getOEmbed_trace (svc : EmbedService) (w : World) (u : String)
    (o : OEmbedOptions) :
    (EmbedService.getOEmbed svc w u o).2 =
      (EmbedService.extractMetadata svc w u).2 := by
  unfold EmbedService.getOEmbed
  rcases hx : EmbedService.extractMetadata svc w u with ⟨r, tr⟩
  rcases r with e | m
  · rfl
  · dsimp only
    rcases EmbedService.findParser svc u with _ | p
    · rfl
    · rfl

theorem renderEmbed_trace (svc : EmbedService) (w : World) (u : String)
    (o : RenderOptions) :
    (EmbedService.renderEmbed svc w u o).2 =
      (EmbedService.extractMetadata svc w u).2 := by
  unfold EmbedService.renderEmbed
  rcases hx : EmbedService.extractMetadata svc w u with ⟨r, tr⟩
  rcases r with e | m
  · rfl
  · dsimp only
    rcases EmbedService.findParser svc u with _ | p
    · rfl
    · rfl

theorem resolveUrl_parses {r base s : String}
    (h : resolveUrl r base = some s) :
    (parseList s.toList).isSome = true := by
  unfold resolveUrl at h
  split at h
  · rename_i abs habs
    cases h
    rw [show (String.mk abs.toStr).toList = abs.toStr from rfl,
        parse_toStr (good_of_parse habs)]
    rfl
  · split at h
    · rename_i b hb
      split at h
      · obtain ⟨u2, hu2, hs⟩ := Option.map_eq_some'.mp h
        subst hs
        rw [show (String.mk u2.toStr).toList = u2.toStr from rfl,
            parse_toStr (good_of_parse hu2)]
        rfl
      · cases h
    · cases h

theorem ogCore_failure (w : World) (u e : String)
    (hf : w.fetchHtml u = Except.error e) :
    MetadataExtractor.extractOpenGraphCore w u = Except.error e := by
  unfold MetadataExtractor.extractOpenGraphCore
  rw [hf]
  rfl

theorem twCore_failure (w : World) (u e : String)
    (hf : w.fetchHtml u = Except.error e) :
    MetadataExtractor.extractTwitterCardsCore w u = Except.error e := by
  unfold MetadataExtractor.extractTwitterCardsCore
  rw [hf]
  rfl

theorem og_failure (w : World) (u e : String)
    (hf : w.fetchHtml u = Except.error e) :
    MetadataExtractor.extractOpenGraph w u =
      (ogFallback u, [FetchEvent.page u]) := by
  unfold MetadataExtractor.extractOpenGraph
  rw [ogCore_failure w u e hf]

theorem tw_failure (w : World) (u e : String)
    (hf : w.fetchHtml u = Except.error e) :
    MetadataExtractor.extractTwitterCards w u =
      (ogFallback u, [FetchEvent.page u]) := by
  unfold MetadataExtractor.extractTwitterCards
  rw [twCore_failure w u e hf]

theorem jsOrStr_self (d : String) :
    jsOrStr (some d) (jsOrStr (some d) d) = d := by
  by_cases hd : d = ""
  · subst hd
    rfl
  · unfold jsOrStr truthy
    dsimp only
    rw [if_neg hd]

theorem basic_failure_fields (w : World) (u e : String)
    (hf : w.fetchHtml u = Except.error e) :
    (MetadataExtractor.extractBasicMetadata w u).1.title =
      some (MetadataExtractor.getDomainFromUrl u) ∧
    (MetadataExtractor.extractBasicMetadata w u).1.type =
      some ContentType.link ∧
    (MetadataExtractor.extractBasicMetadata w u).1.platform =
      some Platform.generic := by
  unfold MetadataExtractor.extractBasicMetadata
  rw [og_failure w u e hf, tw_failure w u e hf]
  dsimp only
  refine ⟨?_, ?_, ?_⟩
  · split
    · dsimp only [ogFallback]
      rw [jsOrStr_self]
    · rfl
  · split
    · rfl
    · rfl
  · split
    · rfl
    · rfl

theorem ogBuild_type_of (doc : HtmlDoc) (url t : String)
    (ht : truthy (MetadataExtractor.extractMetaContent doc [("og:type")]) =
      some t) :
    (ogBuildRecord doc url).type = some (ogTypeMap t) := by
  unfold ogBuildRecord
  rw [ht]
  dsimp only
  repeat' split
  all_goals rfl
/-!
The claim theorems.  Each corrected claim has a closed counterexample
against the claim as stated and a proved amended theorem; confirmed
claims are proved as stated.
-/

/-- Claim C1 (corrected): when the document fetch fails, generic
extraction returns normally with `platform = generic`, `type = link` and
a set title — but the title is the code's degraded domain (the hostname
with the first occurrence of the substring "www." removed anywhere), not
always the requested URL's domain name. -/
theorem claim_C1 (w : World) (u e : String)
    (hf : w.fetchHtml u = Except.error e) :
    (GenericParser.extractMetadata w u).1.platform = some Platform.generic ∧
    (GenericParser.extractMetadata w u).1.type = some ContentType.link ∧
    (GenericParser.extractMetadata w u).1.title =
      some (MetadataExtractor.getDomainFromUrl u) := by
  unfold GenericParser.extractMetadata
  rcases hb : MetadataExtractor.extractBasicMetadata w u with ⟨m0, tr⟩
  dsimp only
  obtain ⟨h1, h2, h3⟩ := basic_failure_fields w u e hf
  rw [hb] at h1 h2 h3
  exact ⟨rfl, h2, h1⟩

/-- Witness for C1 at a concrete failing network and URL. -/
theorem claim_C1_witness :
    (GenericParser.extractMetadata failWorld
      ("https://awww.com/page")).1.platform = some Platform.generic ∧
    (GenericParser.extractMetadata failWorld
      ("https://awww.com/page")).1.type = some ContentType.link ∧
    (GenericParser.extractMetadata failWorld
      ("https://awww.com/page")).1.title =
      some (MetadataExtractor.getDomainFromUrl ("https://awww.com/page")) :=
  claim_C1 failWorld ("https://awww.com/page") ("ENOTFOUND") rfl

/-- Counterexample for C1 as stated: for `https://awww.com/page` the
degraded title is "acom", not the domain name "awww.com". -/
theorem claim_C1_cex :
    (GenericParser.extractMetadata failWorld
      ("https://awww.com/page")).1.title ≠
      specDomainName ("https://awww.com/page") := by
  decide

/-- Claim C2 (confirmed): a valid URL dispatched to a non-generic parser
whose extraction fails is retried exactly once with the generic
extractor, whose (always successful) result is returned with the traces
concatenated. -/
theorem claim_C2 (svc : EmbedService) (w : World) (u e : String)
    (p : PlatformParser) (tr : List FetchEvent)
    (hv : URLParser.isValidUrl u = true)
    (hfp : EmbedService.findParser svc (URLParser.normalizeUrl u) = some p)
    (hng : p.isGeneric = false)
    (herr : p.extractMetadata w (URLParser.normalizeUrl u) =
      (Except.error e, tr)) :
    EmbedService.extractMetadata svc w u =
      (Except.ok (GenericParser.extractMetadata w
        (URLParser.normalizeUrl u)).1,
       tr ++ (GenericParser.extractMetadata w
        (URLParser.normalizeUrl u)).2) := by
  unfold EmbedService.extractMetadata
  rw [hv]
  simp only [Bool.not_true]
  rw [if_neg Bool.false_ne_true]
  rw [hfp]
  dsimp only
  rw [herr]
  dsimp only
  rw [hng]
  rw [if_neg Bool.false_ne_true]
  rfl

/-- Witness for C2: a service holding only a throwing non-generic parser
falls back to the generic extractor. -/
theorem claim_C2_witness :
    EmbedService.extractMetadata { parsers := [failingParser] } failWorld
      ("https://example.com/a") =
      (Except.ok (GenericParser.extractMetadata failWorld
        (URLParser.normalizeUrl ("https://example.com/a"))).1,
       [] ++ (GenericParser.extractMetadata failWorld
        (URLParser.normalizeUrl ("https://example.com/a"))).2) :=
  claim_C2 { parsers := [failingParser] } failWorld ("https://example.com/a")
    ("boom") failingParser [] (by decide) rfl rfl rfl

/-- Claim C3 (corrected): every orchestrator operation performs at most
two sequential fetches, but the possible shapes are: none, one oEmbed
attempt, one page fetch, or two page fetches of the same URL (OpenGraph
then Twitter Card) — not "oEmbed attempt, then possibly one page
fetch"; `getOEmbed` and `renderEmbed` fetch exactly what
`extractMetadata` fetches. -/
theorem claim_C3 (w : World) (u : String) (oo : OEmbedOptions)
    (ro : RenderOptions) :
    admissibleTrace (URLParser.normalizeUrl u)
      (EmbedService.extractMetadata embedService w u).2 ∧
    (EmbedService.getOEmbed embedService w u oo).2 =
      (EmbedService.extractMetadata embedService w u).2 ∧
    (EmbedService.renderEmbed embedService w u ro).2 =
      (EmbedService.extractMetadata embedService w u).2 :=
  ⟨svc_trace w u, getOEmbed_trace embedService w u oo,
   renderEmbed_trace embedService w u ro⟩

/-- Counterexample for C3 as stated: the generic path on a plain URL
performs two page fetches and no oEmbed attempt, which is not of the
shape "oEmbed attempt, then possibly one page fetch". -/
theorem claim_C3_cex :
    specFetchShapeB (EmbedService.extractMetadata embedService failWorld
      ("https://example.com/a")).2 = false := by
  decide

/-- Claim C4 (corrected): a fetched `og:type` value is mapped through the
exact enumeration of the switch — `video`, `video.movie`,
`video.episode`, `video.tv_show`, `video.other` to video; `music`,
`music.song`, `music.album`, `music.playlist` to audio; `article`,
`blog`, `news` to article; every other value (including other `video*`
and `music*` strings) to link. -/
theorem claim_C4 (w : World) (u t : String) (doc : HtmlDoc)
    (m : EmbedMetadata)
    (hf : w.fetchHtml u = Except.ok doc)
    (ht : truthy (MetadataExtractor.extractMetaContent doc [("og:type")]) =
      some t)
    (hok : MetadataExtractor.extractOpenGraphCore w u = Except.ok m) :
    m.type = some (ogTypeMap t) ∧
    ogTypeMap ("video") = ContentType.video ∧
    ogTypeMap ("video.movie") = ContentType.video ∧
    ogTypeMap ("video.episode") = ContentType.video ∧
    ogTypeMap ("video.tv_show") = ContentType.video ∧
    ogTypeMap ("video.other") = ContentType.video ∧
    ogTypeMap ("music") = ContentType.audio ∧
    ogTypeMap ("music.song") = ContentType.audio ∧
    ogTypeMap ("music.album") = ContentType.audio ∧
    ogTypeMap ("music.playlist") = ContentType.audio ∧
    ogTypeMap ("article") = ContentType.article ∧
    ogTypeMap ("blog") = ContentType.article ∧
    ogTypeMap ("news") = ContentType.article := by
  refine ⟨?_, by decide, by decide, by decide, by decide, by decide, by decide,
    by decide, by decide, by decide, by decide, by decide, by decide⟩
  unfold MetadataExtractor.extractOpenGraphCore at hok
  rw [hf] at hok
  have h2 : ogAbsolutiseImage (ogBuildRecord doc u) u = Except.ok m := hok
  obtain ⟨hty, _, _, _⟩ := ogAbs_fields h2
  rw [hty, ogBuild_type_of doc u t ht]

/-- Witness for C4 on a concrete article-typed document. -/
theorem claim_C4_witness :
    (ogBuildRecord articleDoc ("https://example.com/a")).type =
      some (ogTypeMap ("article")) :=
  (claim_C4 (htmlWorld articleDoc) ("https://example.com/a") ("article")
    articleDoc (ogBuildRecord articleDoc ("https://example.com/a"))
    rfl rfl rfl).1

/-- Counterexample for C4 as stated: the `og:type` value "video.clip"
starts with "video" but is mapped to link. -/
theorem claim_C4_cex :
    jsStartsWith ("video.clip") ("video") = true ∧
    (MetadataExtractor.extractOpenGraph (htmlWorld videoClipDoc)
      ("https://example.com/a")).1.type = some ContentType.link := by
  decide

/-- Claim C5 (corrected): when URL parsing fails inside `normalizeUrl`,
the function returns the string it attempted to parse — the input with
"https://" prefixed when the input carried no scheme — which is not
always the original input. -/
theorem claim_C5 (u : String)
    (h : parseList (withScheme u).toList = none) :
    URLParser.normalizeUrl u = withScheme u :=
  normalizeUrl_parse_failure u h

/-- Witness for C5 on an unparsable input. -/
theorem claim_C5_witness :
    URLParser.normalizeUrl ("bad url") = withScheme ("bad url") :=
  claim_C5 ("bad url") rfl

/-- Counterexample for C5 as stated: `normalizeUrl` of "bad url" returns
"https://bad url", not the original input. -/
theorem claim_C5_cex :
    URLParser.normalizeUrl ("bad url") ≠ ("bad url") := by
  decide

/-- Claim C6 (corrected): a truthy image value that does not begin with
the four characters "http" is resolved against the page origin, and the
stored image then parses as an absolute URL; but the guard is the prefix
"http", so a relative path such as "httpfoo.png" is stored unchanged. -/
theorem claim_C6 (m7 : EmbedMetadata) (url img : String) (m : EmbedMetadata)
    (himg : truthy m7.image = some img)
    (hrel : jsStartsWith img ("http") = false)
    (hok : ogAbsolutiseImage m7 url = Except.ok m) :
    ∃ base abs, parseList url.toList = some base ∧
      resolveUrl img (UrlObj.origin base) = some abs ∧
      m.image = some abs ∧ (parseList abs.toList).isSome = true := by
  unfold ogAbsolutiseImage at hok
  rw [himg] at hok
  dsimp only at hok
  rw [hrel] at hok
  simp only [Bool.not_false] at hok
  rw [if_pos trivial] at hok
  rcases hb : parseList url.toList with _ | base
  · rw [hb] at hok
    cases hok
  · rw [hb] at hok
    dsimp only at hok
    rcases hr : resolveUrl img (UrlObj.origin base) with _ | abs
    · rw [hr] at hok
      cases hok
    · rw [hr] at hok
      have hm := Except.ok.inj hok
      refine ⟨base, abs, rfl, hr, ?_, resolveUrl_parses hr⟩
      rw [← hm]

/-- Witness for C6 resolving a root-relative image path. -/
theorem claim_C6_witness :
    ∃ base abs,
      parseList ("https://example.com/dir/page").toList = some base ∧
      resolveUrl ("/img/x.png") (UrlObj.origin base) = some abs ∧
      ({ image := some ("https://example.com/img/x.png") } :
        EmbedMetadata).image = some abs ∧
      (parseList abs.toList).isSome = true :=
  claim_C6 { image := some ("/img/x.png") } ("https://example.com/dir/page")
    ("/img/x.png") { image := some ("https://example.com/img/x.png") }
    rfl rfl rfl

/-- Counterexample for C6 as stated: the relative image path
"httpfoo.png" (it does not parse as a URL) begins with "http" and is
stored unchanged, unresolved. -/
theorem claim_C6_cex :
    (MetadataExtractor.extractOpenGraph (htmlWorld httpRelImageDoc)
      ("https://example.com/dir/page")).1.image = some ("httpfoo.png") ∧
    parseList ("httpfoo.png").toList = none :=
  ⟨by decide, rfl⟩

/-- Claim C7 (corrected): `detectPlatform` returns the first platform in
table order whose pattern matches, so a URL that also matches a later
platform's pattern is classified as the earlier platform; the two
YouTube example URLs do yield platform youtube and id dQw4w9WgXcQ. -/
theorem claim_C7 (u : String) :
    URLParser.detectPlatform u =
      (if (ytPattern1.test u || ytPattern2.test u) = true then
         Platform.youtube
       else if igPattern.test u = true then Platform.instagram
       else if (ttPattern1.test u || ttPattern2.test u) = true then
         Platform.tiktok
       else if (liPattern1.test u || liPattern2.test u) = true then
         Platform.linkedin
       else if twPattern.test u = true then Platform.twitter
       else Platform.generic) ∧
    URLParser.detectPlatform ("https://www.youtube.com/watch?v=dQw4w9WgXcQ") =
      Platform.youtube ∧
    URLParser.extractYouTubeVideoId
      ("https://www.youtube.com/watch?v=dQw4w9WgXcQ") =
      some ("dQw4w9WgXcQ") ∧
    URLParser.detectPlatform ("https://youtu.be/dQw4w9WgXcQ") =
      Platform.youtube ∧
    URLParser.extractYouTubeVideoId ("https://youtu.be/dQw4w9WgXcQ") =
      some ("dQw4w9WgXcQ") :=
  ⟨detectPlatform_eq u, by decide, by decide, by decide, by decide⟩

/-- Counterexample for C7 as stated: a URL matching both the YouTube and
the Instagram patterns is classified as youtube, not instagram. -/
theorem claim_C7_cex :
    platformMatches Platform.instagram
      ("https://youtu.be/abcdefghijk?x=instagram.com/p/Ab") = true ∧
    URLParser.detectPlatform
      ("https://youtu.be/abcdefghijk?x=instagram.com/p/Ab") ≠
      Platform.instagram := by
  decide

/-- Claim C8 (confirmed): `normalizeUrl` is idempotent on every input
string. -/
theorem claim_C8 (u : String) :
    URLParser.normalizeUrl (URLParser.normalizeUrl u) =
      URLParser.normalizeUrl u :=
  normalizeUrl_idem u

/-- Claim C9 (confirmed): every record produced by the YouTube parser,
by the generic parser, or returned by the orchestrator carries the three
required fields `type`, `platform` and `url`. -/
theorem claim_C9 (w : World) (u : String) (m : EmbedMetadata) :
    ((YouTubeParser.extractMetadata w u).1 = Except.ok m →
      requiredFieldsOk m = true) ∧
    requiredFieldsOk (GenericParser.extractMetadata w u).1 = true ∧
    ((EmbedService.extractMetadata embedService w u).1 = Except.ok m →
      requiredFieldsOk m = true) := by
  refine ⟨fun h => ?_, ?_, fun h => ?_⟩
  · obtain ⟨h1, h2, h3⟩ := yt_ok_fields h
    unfold requiredFieldsOk
    rw [h1, h2, h3]
    rfl
  · obtain ⟨h1, h2, h3⟩ := generic_fields w u
    unfold requiredFieldsOk
    rw [h1, h2, h3]
    rfl
  · obtain ⟨h1, h2, h3⟩ := svc_ok_fields h
    unfold requiredFieldsOk
    rw [h1, h2, h3]
    rfl

/-- Witness for C9 through the full orchestrator on a concrete URL. -/
theorem claim_C9_witness :
    requiredFieldsOk (YouTubeParser.extractBasicVideoInfo ("dQw4w9WgXcQ")
      ("https://youtu.be/dQw4w9WgXcQ")) = true :=
  (claim_C9 failWorld ("https://youtu.be/dQw4w9WgXcQ")
    (YouTubeParser.extractBasicVideoInfo ("dQw4w9WgXcQ")
      ("https://youtu.be/dQw4w9WgXcQ"))).2.2 (by rfl)

/-- Claim C10 (confirmed): a URL accepted by the YouTube parser's
`canHandle` always yields a video id, so the "Invalid YouTube URL"
branch is unreachable and extraction succeeds on every network. -/
theorem claim_C10 (w : World) (u : String)
    (h : youtubeParser.canHandle u = true) :
    URLParser.detectPlatform u = Platform.youtube ∧
    (URLParser.extractYouTubeVideoId u).isSome = true ∧
    exceptOk (YouTubeParser.extractMetadata w u).1 = true := by
  have hd : URLParser.detectPlatform u = Platform.youtube :=
    of_decide_eq_true h
  refine ⟨hd, ?_, (yt_extract_of_canHandle w h).1⟩
  obtain ⟨id, hid, _⟩ := yt_id_of_detect hd
  rw [hid]
  rfl

/-- Witness for C10 on a concrete YouTube URL. -/
theorem claim_C10_witness :
    URLParser.detectPlatform ("https://youtu.be/dQw4w9WgXcQ") =
      Platform.youtube ∧
    (URLParser.extractYouTubeVideoId
      ("https://youtu.be/dQw4w9WgXcQ")).isSome = true ∧
    exceptOk (YouTubeParser.extractMetadata failWorld
      ("https://youtu.be/dQw4w9WgXcQ")).1 = true :=
  claim_C10 failWorld ("https://youtu.be/dQw4w9WgXcQ") (by decide)
